import Mathlib

/-!
# xplrcs: the bridge controller of the RCS thermostat to xPL gateway

A shallow embedding of `xplrcs.c`: the command queue (`queueCommand`,
`dequeueCommand`), the configuration parser (`parseConfig`), the status-line
tokenizer (`parseRC65Status`), the inbound message listener (`xPLListener`),
the serial-line handler (`serioHandler`) and the one-second scheduler
(`tickHandler`).

The process-wide variables of the C file are the fields of `State`; every
handler is a function `State → State`.  What a handler writes to the serial
port or sends on the bus is appended to the traces `serialOut` and `busOut`.
Allocation failures (`malloc`, `strdup` returning NULL) end the process through
`fatal` and are outside the model.
-/

namespace Xplrcs

/-! ## Data model -/

/-- A C string (the source's `String` is `char *`): the characters that precede
the terminating NUL. -/
abbrev CString := List Char

/-- Command types, `CmdType_t` of the source. -/
inductive CmdType_t where
  | CMDTYPE_TRANSP
  | CMDTYPE_BASIC
deriving DecidableEq, Repr

/-- Command queueing structure, `struct cmd_entry` of the source.  The `prev`
and `next` links are represented by the position of the entry in the list that
models the queue. -/
structure CmdEntry_t where
  cmd : CString
  type : CmdType_t
deriving DecidableEq, Repr

/-- Message kinds of the xPL library (`xPL_MessageType`). -/
inductive xPL_MessageType where
  | xPL_MESSAGE_ANY
  | xPL_MESSAGE_COMMAND
  | xPL_MESSAGE_STATUS
  | xPL_MESSAGE_TRIGGER
deriving DecidableEq, Repr

/-- Modelled from the spec: one entry of the ordered name/value body of a bus
message (`xPL_NameValuePair` of the xPL library, whose header is not part of
the repository): the fields `itemName`, `itemValue` and `isBinary` are the ones
`xPLListener` reads. -/
structure xPL_NameValuePair where
  itemName : CString
  itemValue : CString
  isBinary : Bool
deriving DecidableEq, Repr

/-- Modelled from the spec: a received bus message as the listener sees it:
broadcast or not, message kind, schema class and type strings, and an ordered
name/value body (absent when the message has none). -/
structure xPL_Message where
  isBroadcastMessage : Bool
  messageType : xPL_MessageType
  schemaClass : CString
  schemaType : CString
  messageBody : Option (List xPL_NameValuePair)
deriving DecidableEq, Repr

/-- Modelled from the spec: the Field Set carried by an outbound status or
trigger message, a mapping from field name to value kept as an association
list in order of first insertion. -/
abbrev FieldSet := List (CString × CString)

/-- One message handed to `xPL_sendMessage`: its kind and the fields it held at
that moment. -/
structure SentMessage where
  kind : xPL_MessageType
  fields : FieldSet
deriving DecidableEq, Repr

/-- The process-wide state of `xplrcs.c`.

* `xplrcsAddress`, `pollRate`, `pollPending`, `lastLine`: the globals of the
  same names;
* `cmdQueue`: the doubly linked list `cmdEntryHead` .. `cmdEntryTail`, head
  first;
* `pollCtr`: the `static short` of `tickHandler`;
* `prateConfig`: the value the xPL service stores under `POLL_RATE_CFG_NAME`;
* `xplrcsTriggerMessage`, `xplrcsStatusMessage`: the named values currently set
  on the two pre-built messages;
* `serialOut`: every string written with `serio_printf`, oldest first;
* `busOut`: every message passed to `xPL_sendMessage`, oldest first. -/
structure State where
  xplrcsAddress : Int
  pollRate : Int
  pollPending : Bool
  cmdQueue : List CmdEntry_t
  pollCtr : Int
  lastLine : CString
  prateConfig : CString
  xplrcsTriggerMessage : FieldSet
  xplrcsStatusMessage : FieldSet
  serialOut : List CString
  busOut : List SentMessage
deriving DecidableEq, Repr

/-- Size of the work strings, `WS_SIZE`. -/
def WS_SIZE : Nat := 256

/-- Default poll rate, `DEF_POLL_RATE`. -/
def DEF_POLL_RATE : Int := 5

/-! ## C library helpers -/

/-- The conversion `%d` of `printf`: decimal digits, with a leading minus sign
for a negative number. -/
def fmtInt (n : Int) : CString :=
  if n < 0 then '-' :: Nat.toDigits 10 n.natAbs else Nat.toDigits 10 n.natAbs

/-- The white space `strtol` skips (`isspace` in the C locale). -/
def isspace (c : Char) : Bool :=
  c = ' ' || c = '\t' || c = '\n' || c = '\r' || c.toNat = 11 || c.toNat = 12

/-- The digit loop of `strtol` in base 10: accumulate decimal digits up to the
first character that is not one. -/
def atoiDigits : Nat → List Char → Nat
  | acc, [] => acc
  | acc, c :: cs =>
    if c.isDigit then atoiDigits (acc * 10 + (c.toNat - 48)) cs else acc

/-- The integer a text denotes as `strtol` scans it in base 10: optional white
space, optional sign, decimal digits up to the first character that is not
one. -/
def decimalValue (s : CString) : Int :=
  match s.dropWhile isspace with
  | '-' :: cs => - (atoiDigits 0 cs : Int)
  | '+' :: cs => (atoiDigits 0 cs : Int)
  | cs => (atoiDigits 0 cs : Int)

/-- The C library's `strtol(s, NULL, 10)` with a 64-bit `long`: the value
scanned, replaced by `LONG_MAX` or `LONG_MIN` when it does not fit. -/
def strtol (s : CString) : Int :=
  if decimalValue s > 9223372036854775807 then 9223372036854775807
  else if decimalValue s < -9223372036854775808 then -9223372036854775808
  else decimalValue s

/-- Conversion of a `long` to `int`: reduction modulo 2^32 into the range
-2147483648 .. 2147483647. -/
def wrapInt (x : Int) : Int := (x + 2147483648) % 4294967296 - 2147483648

/-- The C library's `atoi`, which glibc defines as `(int) strtol(s, NULL, 10)`:
a text whose value does not fit an `int` is read reduced modulo 2^32, so
"4294967326" reads as 30. -/
def atoi (s : CString) : Int := wrapInt (strtol s)

/-- Conversion of an `int` to `short` as gcc does it for `pollCtr++`: reduction
modulo 2^16 into the range -32768 .. 32767. -/
def wrapShort (x : Int) : Int := (x + 32768) % 65536 - 32768

/-- Change string to lower case (`str2Lower`; `tolower` of the C locale). -/
def str2Lower (q : CString) : CString := q.map Char.toLower

/-- Change string to upper case (`str2Upper`; `toupper` of the C locale). -/
def str2Upper (q : CString) : CString := q.map Char.toUpper

/-! ## Configuration -/

/-- Set a config integer value: `sprintf(stringRep, "%d", theInt)` stored under
`POLL_RATE_CFG_NAME`, the only name the program uses. -/
def setConfigInt (s : State) (theInt : Int) : State :=
  { s with prateConfig := fmtInt theInt }

/-- Get a config integer value: `atoi` of the stored string. -/
def getConfigInt (s : State) : Int := atoi s.prateConfig

/-- Parse config change request (`parseConfig`). -/
def parseConfig (s : State) : State :=
  let newPRate := getConfigInt s
  -- Handle bad configurable (override it)
  if newPRate < 1 ∨ newPRate > 60 then
    setConfigInt s s.pollRate
  else
    -- Install new poll rate
    { s with pollRate := newPRate }

/-- Handle config change requests (`configChangedHandler`). -/
def configChangedHandler (s : State) : State := parseConfig s

/-- Modelled from the spec: a reconfiguration request, as the message-bus
collaborator performs it: the requested value is stored in the service
configuration and the registered change listener is invoked. -/
def reconfigure (s : State) (requested : CString) : State :=
  configChangedHandler { s with prateConfig := requested }

/-! ## Command queue -/

/-- Queue a command entry (`queueCommand`): a fresh entry holding a copy of the
text and the type is linked after `cmdEntryTail`, or becomes both head and tail
of an empty list. -/
def queueCommand (q : List CmdEntry_t) (cmd : CString) (type : CmdType_t) :
    List CmdEntry_t :=
  match q with
  | [] => [CmdEntry_t.mk cmd type]
  | e :: rest => (e :: rest) ++ [CmdEntry_t.mk cmd type]

/-- Dequeue a command entry (`dequeueCommand`): NULL on an empty list, the only
entry when head and tail coincide, otherwise the head, whose successor becomes
the new head.  Returns the entry and the remaining queue. -/
def dequeueCommand (q : List CmdEntry_t) : Option CmdEntry_t × List CmdEntry_t :=
  match q with
  | [] => (none, [])
  | [e] => (some e, [])
  | e :: next :: rest => (some e, next :: rest)

/-! ## Scheduler -/

/-- The poll request `"A=%d R=1\r"`. -/
def pollRequest (address : Int) : CString :=
  "A=".toList ++ fmtInt address ++ " R=1\r".toList

/-- Our tick handler (`tickHandler`), fired once per second. -/
def tickHandler (s : State) : State :=
  let pollCtr := wrapShort (s.pollCtr + 1)
  match dequeueCommand s.cmdQueue with
  | (some cmdEntry, q) =>
    -- Uppercase the command string and send it
    { s with pollCtr := pollCtr, cmdQueue := q,
             serialOut := s.serialOut ++ [str2Upper cmdEntry.cmd ++ ['\r']] }
  | (none, q) =>
    if pollCtr ≥ s.pollRate then
      { s with pollCtr := 0, cmdQueue := q,
               serialOut := s.serialOut ++ [pollRequest s.xplrcsAddress],
               pollPending := true }
    else
      { s with pollCtr := pollCtr, cmdQueue := q }

/-! ## Status-line tokenizer -/

/-- One call of `strtok_r` with the delimiter `" "`: skip leading spaces, then
cut the token at the next space.  Returns the token and the text the saved
pointer is left on, or `none` (NULL) when only spaces remain. -/
def strtok_r (cs : CString) : Option (CString × CString) :=
  match cs.dropWhile (· == ' ') with
  | [] => none
  | c :: rest =>
    some ((c :: rest).takeWhile (· != ' '), ((c :: rest).dropWhile (· != ' ')).drop 1)

/-- The loop of `parseRC65Status`: at most `limit` tokens are taken. -/
def parseLoop : Nat → CString → List CString
  | 0, _ => []
  | limit + 1, cs =>
    match strtok_r cs with
    | none => []
    | some (arg, rest) => arg :: parseLoop limit rest

/-- Parse an RC65 status line into its constituent elements
(`parseRC65Status`).  The result is the argument list; the C function returns
its length. -/
def parseRC65Status (ws : CString) (limit : Nat) : List CString :=
  -- Bail if work string has zero length
  if ws.length = 0 then [] else parseLoop limit ws

/-- All the space-separated tokens of a line: the tokenizer run with a limit it
cannot reach (a line of `n` characters has fewer than `n + 1` tokens). -/
def tokens (line : CString) : List CString := parseLoop (line.length + 1) line

/-! ## Bus messages -/

/-- Modelled from the spec: `xPL_getMessageNamedValue` of the xPL library, the
value of the first body entry with the given name, NULL (`none`) when the
message has no such entry or no body. -/
def xPL_getMessageNamedValue (theMessage : xPL_Message) (theName : CString) :
    Option CString :=
  match theMessage.messageBody with
  | none => none
  | some body => (body.find? (fun nv => nv.itemName = theName)).map (·.itemValue)

/-- Modelled from the spec: `xPL_setMessageNamedValue` of the xPL library on
the Field Set of a message: the value of an existing name is replaced, a new
name is added at the end. -/
def xPL_setMessageNamedValue : FieldSet → CString → CString → FieldSet
  | [], theName, theValue => [(theName, theValue)]
  | (n, v) :: rest, theName, theValue =>
    if n = theName then (n, theValue) :: rest
    else (n, v) :: xPL_setMessageNamedValue rest theName theValue

/-- Modelled from the spec: `xPL_clearMessageNamedValues` of the xPL library:
the message holds no field afterwards. -/
def xPL_clearMessageNamedValues (_ : FieldSet) : FieldSet := []

/-! ## Inbound commands -/

/-- Basic command list. -/
def basicCommandList : List CString := ["hvac-mode".toList, "fan-mode".toList]

/-- Heating and cooling modes. -/
def modeList : List CString := ["off".toList, "heat".toList, "cool".toList, "auto".toList]

/-- Commands for modes. -/
def modeCommands : List CString := [" M=O".toList, " M=H".toList, " M=C".toList, " M=A".toList]

/-- Fan modes. -/
def fanModeList : List CString := ["auto".toList, "on".toList]

/-- Commands for fan modes. -/
def fanModeCommands : List CString := [" FM=0".toList, " FM=1".toList]

/-- Match a command from a NULL-terminated list, return index to list entry
(`matchCommand`); the index of the terminating NULL, that is the length of the
list, when nothing matches. -/
def matchCommand : List CString → CString → Nat
  | [], _ => 0
  | c :: rest, command => if command = c then 0 else matchCommand rest command + 1

/-- Command handler for hvac-mode (`doHVACMode`): the work string with the
mode command appended, or NULL. -/
def doHVACMode (ws : CString) (theMessage : xPL_Message) (_zone : CString) :
    Option CString :=
  match xPL_getMessageNamedValue theMessage "mode".toList with
  | none => none
  | some mode =>
    let i := matchCommand modeList mode
    match modeList[i]? with
    | some _ => some (ws ++ modeCommands.getD i [])
    | none => none

/-- Command handler for fan mode (`doFanMode`). -/
def doFanMode (ws : CString) (theMessage : xPL_Message) (_zone : CString) :
    Option CString :=
  match xPL_getMessageNamedValue theMessage "mode".toList with
  | none => none
  | some mode =>
    let i := matchCommand fanModeList mode
    match fanModeList[i]? with
    | some _ => some (ws ++ fanModeCommands.getD i [])
    | none => none

/-- The loop of the transparent schema in `xPLListener`, over the body entries
not yet visited: `ws` is the work string, `charsInBuffer` the running count.
`snprintf(p, 33, "%s=%s", ...)` stores at most 32 characters and returns the
length of the whole `NAME=VALUE`.  The count is an `int` in the source; bodies
long enough to overflow it are outside the model. -/
def transpLoop : List xPL_NameValuePair → CString → Nat → CString
  | [], ws, _ => ws
  | nvpp :: rest, ws, charsInBuffer =>
    if charsInBuffer < WS_SIZE - 33 then
      if !nvpp.isBinary then
        let formatted := nvpp.itemName ++ '=' :: nvpp.itemValue
        transpLoop rest (ws ++ formatted.take 32 ++ [' '])
          (charsInBuffer + formatted.length + 1)
      else
        transpLoop rest ws charsInBuffer
    else ws

/-- Our listener (`xPLListener`). -/
def xPLListener (s : State) (theMessage : xPL_Message) : State :=
  if !theMessage.isBroadcastMessage then -- If not a broadcast message
    if theMessage.messageType = xPL_MessageType.xPL_MESSAGE_COMMAND then
      if theMessage.schemaClass = "hvac".toList then
        if theMessage.schemaType = "transp".toList then -- Transparent schema
          -- Append the controller address
          let ws := "A=".toList ++ fmtInt s.xplrcsAddress ++ " ".toList
          match theMessage.messageBody with
          | some msgBody =>
            let ws1 := transpLoop msgBody ws ws.length
            { s with cmdQueue := queueCommand s.cmdQueue ws1 CmdType_t.CMDTYPE_TRANSP }
          | none => s
        else if theMessage.schemaType = "basic".toList then -- Basic command schema
          match xPL_getMessageNamedValue theMessage "command".toList with
          | some command =>
            let cmd : Option CString :=
              match xPL_getMessageNamedValue theMessage "zone".toList with
              | some zone =>
                let ws := "A=1".toList
                match matchCommand basicCommandList command with
                | 0 => doHVACMode ws theMessage zone
                | 1 => doFanMode ws theMessage zone
                | _ => none
              | none => none
            match cmd with
            | some c => { s with cmdQueue := queueCommand s.cmdQueue c CmdType_t.CMDTYPE_BASIC }
            | none => s
          | none => s
        else if theMessage.schemaType = "request".toList then s
        else s
      else s
    else s
  else s

/-! ## Serial-line handler -/

/-- The loop of the poll branch of `serioHandler` over the arguments not yet
visited: `lastArgs` are the arguments of the previous line from the same
index on, `msg` the fields set on the trigger message so far.  The previous
argument is read only while `sendAll` is false, when both lists have the same
length. -/
def triggerLoop : List CString → List CString → Bool → FieldSet → FieldSet
  | [], _, _, msg => msg
  | arg :: curRest, lastArgs, sendAll, msg =>
    -- If sendAll is set or args changed, then add the arg to the list of things to send
    if sendAll || lastArgs.head? != some arg then
      if '=' ∈ arg then
        let pd := arg.indexOf '='
        let low := str2Lower arg -- Lower case arg
        let key := low.take pd
        let value := low.drop (pd + 1)
        if key ≠ "a".toList then -- Do not send address arg
          triggerLoop curRest lastArgs.tail sendAll (xPL_setMessageNamedValue msg key value)
        else
          triggerLoop curRest lastArgs.tail sendAll msg
      else
        triggerLoop curRest lastArgs.tail true msg
    else
      triggerLoop curRest lastArgs.tail sendAll msg

/-- The loop of the non-poll branch of `serioHandler`. -/
def statusLoop : List CString → FieldSet → FieldSet
  | [], msg => msg
  | arg :: curRest, msg =>
    let low := str2Lower arg -- Lower case arg
    if '=' ∈ low then
      let pd := low.indexOf '='
      let key := low.take pd
      let value := low.drop (pd + 1)
      if key ≠ "a".toList then -- Do not send address arg
        statusLoop curRest (xPL_setMessageNamedValue msg key value)
      else
        statusLoop curRest msg
    else
      statusLoop curRest msg

/-- Serial I/O handler (`serioHandler`).  `rd` is the outcome of the
non-blocking line read: `none` when no complete line is available, otherwise
the line. -/
def serioHandler (s : State) (rd : Option CString) : State :=
  match rd with
  | none => s
  | some line =>
    if s.pollPending then
      -- Has to be a response to a poll; compare with last line received
      if line ≠ s.lastLine then
        let curArgList := parseRC65Status line 19
        let lastArgList := parseRC65Status s.lastLine 19
        -- If arg list mismatch, set the sendAll flag
        let sendAll : Bool := lastArgList.length != curArgList.length
        let msg := triggerLoop curArgList lastArgList sendAll
          (xPL_clearMessageNamedValues s.xplrcsTriggerMessage)
        { s with pollPending := false,
                 xplrcsTriggerMessage := msg,
                 busOut := s.busOut ++ [SentMessage.mk xPL_MessageType.xPL_MESSAGE_TRIGGER msg],
                 -- Copy current string into last string for future comparisons
                 lastLine := line.take (WS_SIZE - 1) }
      else
        { s with pollPending := false }
    else
      -- It is a response not related to a poll
      let curArgList := parseRC65Status line 19
      let msg := statusLoop curArgList (xPL_clearMessageNamedValues s.xplrcsStatusMessage)
      { s with xplrcsStatusMessage := msg,
               busOut := s.busOut ++ [SentMessage.mk xPL_MessageType.xPL_MESSAGE_STATUS msg] }

/-- The state right after start-up, before `main` parses the configuration:
the initial values of the globals, an empty queue, an empty `lastLine`. -/
def initialState (address : Int) (storedPrate : CString) : State :=
  { xplrcsAddress := address, pollRate := 5, pollPending := false, cmdQueue := [],
    pollCtr := 0, lastLine := [], prateConfig := storedPrate,
    xplrcsTriggerMessage := [], xplrcsStatusMessage := [], serialOut := [], busOut := [] }

/-! ## Vocabulary for the status reports -/

/-- The key of a status token `KEY=VALUE`: the text before its first `=`. -/
def keyOf (arg : CString) : CString := arg.takeWhile (· != '=')

/-- The value of a status token `KEY=VALUE`: the text after its first `=`. -/
def valueOf (arg : CString) : CString := (arg.dropWhile (· != '=')).drop 1

/-- The name and value a status token is reported with: `str2Lower` is applied
to the whole token before it is cut at the `=`. -/
def fieldOf (arg : CString) : CString × CString :=
  (str2Lower (keyOf arg), str2Lower (valueOf arg))

/-- A token that yields a field on the bus: it has an `=` separator and its
lower-cased key is not the address key "a". -/
def reportable (arg : CString) : Bool :=
  decide ('=' ∈ arg) && (str2Lower (keyOf arg) != "a".toList)

/-- Set the fields of a list of tokens on a message, in order. -/
def setFields (msg : FieldSet) (args : List CString) : FieldSet :=
  args.foldl (fun m arg => xPL_setMessageNamedValue m (fieldOf arg).1 (fieldOf arg).2) msg

/-- The tokens of the current line that differ from the token at the same
position of the previous line. -/
def changedArgs : List CString → List CString → List CString
  | arg :: curRest, last :: lastRest =>
    if arg ≠ last then arg :: changedArgs curRest lastRest else changedArgs curRest lastRest
  | _, _ => []

/-! ## Runs -/

/-- One call on the command queue. -/
inductive QueueCall where
  | enqueue (cmd : CString) (type : CmdType_t)
  | dequeue
deriving DecidableEq, Repr

/-- Perform a sequence of queue calls from the queue `q`: the final queue, and
the entries the dequeues returned, in the order they were returned. -/
def runCalls : List QueueCall → List CmdEntry_t → List CmdEntry_t × List CmdEntry_t
  | [], q => (q, [])
  | QueueCall.enqueue cmd type :: rest, q => runCalls rest (queueCommand q cmd type)
  | QueueCall.dequeue :: rest, q =>
    match dequeueCommand q with
    | (some e, q1) => ((runCalls rest q1).1, e :: (runCalls rest q1).2)
    | (none, q1) => runCalls rest q1

/-- The entries given to the `queueCommand` calls of a sequence, in call order. -/
def enqueuedBy : List QueueCall → List CmdEntry_t
  | [] => []
  | QueueCall.enqueue cmd type :: rest => CmdEntry_t.mk cmd type :: enqueuedBy rest
  | QueueCall.dequeue :: rest => enqueuedBy rest

/-- The events the xPL event loop dispatches to the handlers. -/
inductive Event where
  | message (theMessage : xPL_Message)
  | tick
  | serial (rd : Option CString)
deriving DecidableEq, Repr

/-- Dispatch of one event to its handler. -/
def step (s : State) : Event → State
  | Event.message theMessage => xPLListener s theMessage
  | Event.tick => tickHandler s
  | Event.serial rd => serioHandler s rd

/-- The state after a sequence of events. -/
def run (s : State) (events : List Event) : State := events.foldl step s

/-- Number of tick events in a sequence. -/
def tickCount (events : List Event) : Nat := events.count Event.tick

/-! ## Command and poll in flight -/

/-- The state together with the history flag the in-flight invariant speaks
of: `commandInFlight` holds when `tickHandler` has transmitted a queued command
and no serial line has been received since. -/
structure Flight where
  state : State
  commandInFlight : Bool
deriving DecidableEq, Repr

/-- A poll is in flight when `pollPending` is true. -/
def pollInFlight (f : Flight) : Bool := f.state.pollPending

/-- One event on the state with its history flag: a tick transmits a queued
command exactly when `dequeueCommand` returns an entry; a received serial line
ends the command in flight; a read that yields no line changes nothing. -/
def flightStep (f : Flight) : Event → Flight
  | Event.message theMessage => Flight.mk (xPLListener f.state theMessage) f.commandInFlight
  | Event.tick =>
    Flight.mk (tickHandler f.state)
      ((dequeueCommand f.state.cmdQueue).1.isSome || f.commandInFlight)
  | Event.serial none => f
  | Event.serial (some line) => Flight.mk (serioHandler f.state (some line)) false

/-- The state and history flag after a sequence of events. -/
def flightRun (f : Flight) (events : List Event) : Flight := events.foldl flightStep f

/-- The initial state: empty queue, `pollPending` false, nothing in flight. -/
def initialFlight (address : Int) (storedPrate : CString) : Flight :=
  Flight.mk (initialState address storedPrate) false

/-- Every tick of the run finds nothing in flight: each time a tick event is
dispatched, no command and no poll is in flight, the line answering the last
transmission having been received before. -/
def ticksFindNothingInFlight (f : Flight) : List Event → Bool
  | [] => true
  | Event.tick :: rest =>
    !f.commandInFlight && !pollInFlight f
      && ticksFindNothingInFlight (flightStep f Event.tick) rest
  | Event.message theMessage :: rest =>
    ticksFindNothingInFlight (flightStep f (Event.message theMessage)) rest
  | Event.serial rd :: rest =>
    ticksFindNothingInFlight (flightStep f (Event.serial rd)) rest

/-! ## The scheduler rule of the design -/

/-- The three-case rule as the design words it: (1) queue non-empty: send the
head, the tick counter stays as it was; (2) else, the tick counter has reached
the poll rate: reset it, send the poll request, set `pollPending`; (3) else:
increment the counter and write nothing. -/
def designTick (s : State) : State :=
  match s.cmdQueue with
  | e :: rest =>
    { s with cmdQueue := rest, serialOut := s.serialOut ++ [str2Upper e.cmd ++ ['\r']] }
  | [] =>
    if s.pollCtr ≥ s.pollRate then
      { s with pollCtr := 0, serialOut := s.serialOut ++ [pollRequest s.xplrcsAddress],
               pollPending := true }
    else
      { s with pollCtr := s.pollCtr + 1 }

/-! ## Vocabulary for the transparent schema -/

/-- The text `NAME=VALUE` of a body entry, what the format `"%s=%s"` yields. -/
def renderPair (nvpp : xPL_NameValuePair) : CString :=
  nvpp.itemName ++ '=' :: nvpp.itemValue

/-- The non-binary entries of a message body, in body order. -/
def nonBinary (body : List xPL_NameValuePair) : List xPL_NameValuePair :=
  body.filter (fun nvpp => !nvpp.isBinary)

/-- The start of a transparent command, `"A=%d "` with the configured address. -/
def addressPrefix (address : Int) : CString :=
  "A=".toList ++ fmtInt address ++ " ".toList

/-- The text the transparent loop appends for a list of pairs: each
`NAME=VALUE`, cut to its first 32 characters, followed by a space. -/
def appendPairs : List xPL_NameValuePair → CString
  | [] => []
  | nvpp :: rest => (renderPair nvpp).take 32 ++ ' ' :: appendPairs rest

/-- The value of `charsInBuffer` after the non-binary pairs of a list have been
appended, starting from `start`: the whole length of each `NAME=VALUE`, cut or
not, and one for its space. -/
def charsCounted (start : Nat) (pairs : List xPL_NameValuePair) : Nat :=
  start + ((nonBinary pairs).map (fun nvpp => (renderPair nvpp).length + 1)).sum

/-- The body of one iteration of the transparent loop on the pair
(work string, `charsInBuffer`): a non-binary entry appends at most 32 characters
of its `NAME=VALUE` and a space, and adds the whole length and one to the
count; a binary entry changes nothing. -/
def transpStep (nvpp : xPL_NameValuePair) (st : CString × Nat) : CString × Nat :=
  if !nvpp.isBinary then
    (st.1 ++ (renderPair nvpp).take 32 ++ [' '], st.2 + (renderPair nvpp).length + 1)
  else st

/-- The work string and `charsInBuffer` each time the loop condition of the
transparent loop is evaluated, in order: an iteration is entered only while
`charsInBuffer < WS_SIZE - 33`. -/
def transpStates : List xPL_NameValuePair → CString × Nat → List (CString × Nat)
  | [], st => [st]
  | nvpp :: rest, st =>
    st :: (if st.2 < WS_SIZE - 33 then transpStates rest (transpStep nvpp st) else [])

/-- The message with the value of every `zone` entry of its body replaced. -/
def withZone (zone : CString) (m : xPL_Message) : xPL_Message :=
  { m with messageBody := m.messageBody.map (fun body =>
      body.map (fun nv =>
        if nv.itemName = "zone".toList then { nv with itemValue := zone } else nv)) }

end Xplrcs

namespace Xplrcs

/-! ## Command queue: FIFO order -/

theorem queueCommand_eq_append (q : List CmdEntry_t) (cmd : CString) (type : CmdType_t) :
    queueCommand q cmd type = q ++ [CmdEntry_t.mk cmd type] := by
  cases q <;> rfl

theorem dequeueCommand_cons (e : CmdEntry_t) (q : List CmdEntry_t) :
    dequeueCommand (e :: q) = (some e, q) := by
  cases q <;> rfl

theorem runCalls_conserves (calls : List QueueCall) :
    ∀ q : List CmdEntry_t,
      q ++ enqueuedBy calls = (runCalls calls q).2 ++ (runCalls calls q).1 := by
  induction calls with
  | nil => intro q; simp [runCalls, enqueuedBy]
  | cons c rest ih =>
    intro q
    cases c with
    | enqueue cmd type =>
      have h := ih (queueCommand q cmd type)
      rw [queueCommand_eq_append] at h
      simpa [runCalls, enqueuedBy, queueCommand_eq_append] using h
    | dequeue =>
      cases q with
      | nil => simpa [runCalls, enqueuedBy, dequeueCommand] using ih []
      | cons e q1 =>
        have h := ih q1
        simp only [runCalls, enqueuedBy, dequeueCommand_cons, List.cons_append]
        rw [h]

theorem runCalls_append (calls : List QueueCall) :
    ∀ (more : List QueueCall) (q : List CmdEntry_t),
      runCalls (calls ++ more) q
        = ((runCalls more (runCalls calls q).1).1,
           (runCalls calls q).2 ++ (runCalls more (runCalls calls q).1).2) := by
  induction calls with
  | nil => intro more q; simp [runCalls]
  | cons c rest ih =>
    intro more q
    cases c with
    | enqueue cmd type =>
      simp only [List.cons_append, runCalls]
      exact ih more _
    | dequeue =>
      cases q with
      | nil =>
        simp only [List.cons_append, runCalls, dequeueCommand]
        exact ih more _
      | cons e q1 =>
        simp only [List.cons_append, runCalls, dequeueCommand_cons]
        have h : runCalls (rest.append more) q1
            = ((runCalls more (runCalls rest q1).1).1,
               (runCalls rest q1).2 ++ (runCalls more (runCalls rest q1).1).2) := ih more q1
        rw [h]

/-- C1. Starting from the empty queue, after any finite interleaving of
`queueCommand` and `dequeueCommand` calls, the entries given to `queueCommand`,
in call order, are exactly the entries the dequeues returned, in return order,
followed by the entries still queued; so the k-th entry returned is the k-th
entry enqueued, with its text and kind.  One more `dequeueCommand` returns the
oldest entry still queued, whenever there is one, and removes it; one more
`queueCommand` puts its entry behind those still queued.  `dequeueCommand` on a
non-empty queue always returns its head; on the empty queue it returns no entry
and leaves the queue empty. -/
theorem queue_fifo (calls : List QueueCall) :
    enqueuedBy calls = (runCalls calls []).2 ++ (runCalls calls []).1
    ∧ (∀ (k : Nat) (e : CmdEntry_t), (runCalls calls []).2[k]? = some e →
        (enqueuedBy calls)[k]? = some e)
    ∧ runCalls (calls ++ [QueueCall.dequeue]) []
        = ((runCalls calls []).1.tail,
           (runCalls calls []).2 ++ (runCalls calls []).1.head?.toList)
    ∧ (∀ (cmd : CString) (type : CmdType_t),
        runCalls (calls ++ [QueueCall.enqueue cmd type]) []
          = ((runCalls calls []).1 ++ [CmdEntry_t.mk cmd type], (runCalls calls []).2))
    ∧ (∀ (e : CmdEntry_t) (q : List CmdEntry_t), dequeueCommand (e :: q) = (some e, q))
    ∧ (∀ (q : List CmdEntry_t) (cmd : CString) (type : CmdType_t),
        queueCommand q cmd type = q ++ [CmdEntry_t.mk cmd type])
    ∧ dequeueCommand [] = (none, []) := by
  have h := runCalls_conserves calls []
  simp only [List.nil_append] at h
  refine ⟨h, ?_, ?_, ?_, dequeueCommand_cons, queueCommand_eq_append, rfl⟩
  · intro k e hk
    rw [h]
    have hlt : k < (runCalls calls []).2.length := by
      by_contra hge
      rw [List.getElem?_eq_none (Nat.le_of_not_lt hge)] at hk
      exact Option.noConfusion hk
    rw [List.getElem?_append_left hlt]
    exact hk
  · rw [runCalls_append]
    cases hq : (runCalls calls []).1 with
    | nil => simp [runCalls, dequeueCommand]
    | cons e q1 => simp [runCalls, dequeueCommand_cons]
  · intro cmd type
    rw [runCalls_append]
    simp [runCalls, queueCommand_eq_append]

/-! ## Scheduler: commands take priority -/

/-- C2. In every state whose command queue is non-empty, whatever the tick
counter and the poll rate, one call of `tickHandler` removes exactly the head
entry, writes exactly one serial line, the entry text upper-cased followed by a
carriage return, writes no poll request and leaves `pollPending` (and every
other variable but the tick counter) unchanged. -/
theorem tick_sends_queued_command (s : State) (e : CmdEntry_t) (rest : List CmdEntry_t)
    (hq : s.cmdQueue = e :: rest) :
    (tickHandler s).cmdQueue = rest
    ∧ (tickHandler s).serialOut = s.serialOut ++ [str2Upper e.cmd ++ ['\r']]
    ∧ (tickHandler s).pollPending = s.pollPending
    ∧ tickHandler s =
        { s with pollCtr := wrapShort (s.pollCtr + 1), cmdQueue := rest,
                 serialOut := s.serialOut ++ [str2Upper e.cmd ++ ['\r']] } := by
  have h : tickHandler s =
      { s with pollCtr := wrapShort (s.pollCtr + 1), cmdQueue := rest,
               serialOut := s.serialOut ++ [str2Upper e.cmd ++ ['\r']] } := by
    simp only [tickHandler, hq, dequeueCommand_cons]
  rw [h]
  exact ⟨rfl, rfl, rfl, rfl⟩

/-- Witness of C2: with the queue holding "a=1 m=c" and then "a=1 fm=1", the
tick counter at 59 and the poll rate at 5, the tick writes "A=1 M=C\r" and
keeps the second entry. -/
theorem tick_sends_queued_command_witness :
    (tickHandler { initialState 1 "5".toList with
        pollCtr := 59,
        cmdQueue := [CmdEntry_t.mk "a=1 m=c".toList CmdType_t.CMDTYPE_BASIC,
                     CmdEntry_t.mk "a=1 fm=1".toList CmdType_t.CMDTYPE_BASIC] }).serialOut
      = ["A=1 M=C\r".toList] :=
  (tick_sends_queued_command
    { initialState 1 "5".toList with
        pollCtr := 59,
        cmdQueue := [CmdEntry_t.mk "a=1 m=c".toList CmdType_t.CMDTYPE_BASIC,
                     CmdEntry_t.mk "a=1 fm=1".toList CmdType_t.CMDTYPE_BASIC] }
    (CmdEntry_t.mk "a=1 m=c".toList CmdType_t.CMDTYPE_BASIC)
    [CmdEntry_t.mk "a=1 fm=1".toList CmdType_t.CMDTYPE_BASIC] rfl).2.1

/-! ## Poll-rate validation -/

theorem digitChar_props :
    ∀ d : Nat, d < 10 →
      (Nat.digitChar d).isDigit = true ∧ (Nat.digitChar d).toNat - 48 = d
      ∧ isspace (Nat.digitChar d) = false
      ∧ Nat.digitChar d ≠ '-' ∧ Nat.digitChar d ≠ '+' := by
  decide

theorem atoiDigits_toDigitsCore (fuel : Nat) :
    ∀ (n : Nat) (ds : List Char), n < fuel →
      ∃ k : Nat, ∀ acc : Nat,
        atoiDigits acc (Nat.toDigitsCore 10 fuel n ds) = atoiDigits (acc * 10 ^ k + n) ds := by
  induction fuel with
  | zero => intro n ds h; omega
  | succ fuel ih =>
    intro n ds hn
    obtain ⟨hdig, hval, -⟩ := digitChar_props (n % 10) (Nat.mod_lt _ (by decide))
    by_cases h0 : n / 10 = 0
    · refine ⟨1, fun acc => ?_⟩
      have hlt : n % 10 = n := Nat.mod_eq_of_lt (by omega)
      rw [hlt] at hdig hval
      simp only [Nat.toDigitsCore, h0, if_true, atoiDigits, hdig, hval, hlt, pow_one]
    · obtain ⟨k, hk⟩ := ih (n / 10) (Nat.digitChar (n % 10) :: ds) (by omega)
      refine ⟨k + 1, fun acc => ?_⟩
      simp only [Nat.toDigitsCore, h0, if_false, hk, atoiDigits, hdig, hval, if_true]
      congr 1
      rw [pow_succ]
      have := Nat.div_add_mod n 10
      nlinarith [this]

theorem toDigitsCore_head (fuel : Nat) :
    ∀ (n : Nat) (ds : List Char), n < fuel →
      ∃ (d : Nat) (tl : List Char), d < 10 ∧
        Nat.toDigitsCore 10 fuel n ds = Nat.digitChar d :: tl := by
  induction fuel with
  | zero => intro n ds h; omega
  | succ fuel ih =>
    intro n ds hn
    by_cases h0 : n / 10 = 0
    · exact ⟨n % 10, ds, Nat.mod_lt _ (by decide), by simp [Nat.toDigitsCore, h0]⟩
    · obtain ⟨d, tl, hd, htl⟩ := ih (n / 10) (Nat.digitChar (n % 10) :: ds) (by omega)
      exact ⟨d, tl, hd, by simp [Nat.toDigitsCore, h0, htl]⟩

theorem decimalValue_fmtInt (p : Int) : decimalValue (fmtInt p) = p := by
  obtain ⟨k, hk⟩ := atoiDigits_toDigitsCore (p.natAbs + 1) p.natAbs [] (Nat.lt_succ_self _)
  obtain ⟨d, tl, hd, htl⟩ := toDigitsCore_head (p.natAbs + 1) p.natAbs [] (Nat.lt_succ_self _)
  obtain ⟨-, -, hsp, hminus, hplus⟩ := digitChar_props d hd
  have hval : atoiDigits 0 (Nat.toDigits 10 p.natAbs) = p.natAbs := by
    have := hk 0
    simpa [Nat.toDigits, atoiDigits] using this
  by_cases hneg : p < 0
  · have hfmt : fmtInt p = '-' :: Nat.toDigits 10 p.natAbs := by simp [fmtInt, hneg]
    have hdrop : (fmtInt p).dropWhile isspace = '-' :: Nat.toDigits 10 p.natAbs := by
      rw [hfmt]; rfl
    unfold decimalValue
    rw [hdrop]
    simp only [hval]
    omega
  · have hfmt : fmtInt p = Nat.digitChar d :: tl := by
      simp [fmtInt, hneg, Nat.toDigits, htl]
    have hdrop : (fmtInt p).dropWhile isspace = Nat.digitChar d :: tl := by
      rw [hfmt, List.dropWhile_cons, hsp]; rfl
    have hval2 : atoiDigits 0 (Nat.digitChar d :: tl) = p.natAbs := by
      rw [← hval, Nat.toDigits, htl]
    unfold decimalValue
    rw [hdrop]
    split
    · next cs heq => exact absurd (List.cons.inj heq).1 hminus
    · next cs heq => exact absurd (List.cons.inj heq).1 hplus
    · rw [hval2]; omega

theorem atoi_wraps_example :
    atoi "4294967326".toList = 30
    ∧ (reconfigure (initialState 1 "5".toList) "4294967326".toList).pollRate = 30 := by
  decide

theorem serioHandler_frame (s : State) (rd : Option CString) :
    (serioHandler s rd).pollCtr = s.pollCtr
    ∧ (serioHandler s rd).cmdQueue = s.cmdQueue
    ∧ (serioHandler s rd).pollRate = s.pollRate
    ∧ (serioHandler s rd).xplrcsAddress = s.xplrcsAddress
    ∧ (serioHandler s rd).serialOut = s.serialOut
    ∧ (serioHandler s rd).prateConfig = s.prateConfig := by
  cases rd with
  | none => simp [serioHandler]
  | some line =>
    simp only [serioHandler]
    split_ifs <;> simp

theorem tickHandler_empty_queue (s : State) (hq : s.cmdQueue = []) :
    tickHandler s =
      if wrapShort (s.pollCtr + 1) ≥ s.pollRate then
        { s with pollCtr := 0, cmdQueue := [],
                 serialOut := s.serialOut ++ [pollRequest s.xplrcsAddress],
                 pollPending := true }
      else
        { s with pollCtr := wrapShort (s.pollCtr + 1), cmdQueue := [] } := by
  simp only [tickHandler, hq, dequeueCommand]

theorem run_append (s : State) (events : List Event) (e : Event) :
    run s (events ++ [e]) = step (run s events) e := by
  simp [run, List.foldl_append]

theorem tickCount_append (events : List Event) (e : Event) :
    tickCount (events ++ [e]) = tickCount events + (if e = Event.tick then 1 else 0) := by
  simp only [tickCount, List.count_append, List.count_singleton]
  by_cases h : e = Event.tick
  · simp [h]
  · have h2 : ¬ (Event.tick = e) := fun hc => h hc.symm
    simp [h, h2]

theorem succ_mod_eq (n r : Nat) : (n + 1) % r = (n % r + 1) % r := by
  conv_lhs => rw [← Nat.div_add_mod n r, Nat.add_assoc, Nat.mul_add_mod]

theorem run_idle_invariant (s : State) (r : Nat) (hr1 : 1 ≤ r) (hr60 : r ≤ 60)
    (hrate : s.pollRate = r) (hctr : s.pollCtr = 0) (hq : s.cmdQueue = [])
    (events : List Event) :
    (∀ e ∈ events, e = Event.tick ∨ ∃ rd, e = Event.serial rd) →
      (run s events).pollRate = r ∧ (run s events).cmdQueue = []
      ∧ (run s events).xplrcsAddress = s.xplrcsAddress
      ∧ (run s events).pollCtr = ((tickCount events % r : Nat) : Int) := by
  induction events using List.reverseRecOn with
  | nil => intro _; simp [run, tickCount, hrate, hctr, hq]
  | append_singleton events e ih =>
    intro hev
    obtain ⟨h1, h2, h3, h4⟩ := ih (fun x hx => hev x (List.mem_append_left _ hx))
    rw [run_append, tickCount_append]
    have hmod : tickCount events % r < r := Nat.mod_lt _ (by omega)
    rcases hev e (by simp) with he | ⟨rd, he⟩
    · subst he
      simp only [step, if_true]
      rw [tickHandler_empty_queue _ h2]
      have hw : wrapShort ((run s events).pollCtr + 1) = ((tickCount events % r : Nat) : Int) + 1 := by
        rw [h4]; unfold wrapShort; omega
      rw [hw, h1]
      by_cases hge : ((tickCount events % r : Nat) : Int) + 1 ≥ (r : Int)
      · have heq : tickCount events % r + 1 = r := by omega
        have hz : (tickCount events + 1) % r = 0 := by
          rw [succ_mod_eq, heq, Nat.mod_self]
        simp only [hge, if_true, h1, h3, hz]
        simp
      · have hlt : tickCount events % r + 1 < r := by omega
        have hz : (tickCount events + 1) % r = tickCount events % r + 1 := by
          rw [succ_mod_eq, Nat.mod_eq_of_lt hlt]
        simp only [hge, if_false, h1, h3, hz]
        simp
    · subst he
      obtain ⟨f1, f2, f3, f4, -, -⟩ := serioHandler_frame (run s events) rd
      simp only [step]
      rw [f1, f2, f3, f4]
      have : ¬ (Event.serial rd = Event.tick) := by intro h; cases h
      simp [this, h1, h2, h3, h4]

/-- C4. With a constant poll rate `r` in [1,60], the tick counter at 0 and an
empty command queue, after any sequence of ticks and serial-line events (no
inbound command, so the queue is empty on every tick) the next tick, tick
number `n = tickCount events + 1`, transmits the poll request
`"A=<address> R=1\r"` and sets `pollPending` when `r` divides `n`, and
otherwise writes nothing to the serial port and leaves `pollPending` as it
was. -/
theorem poll_every_pollRate_ticks (s : State) (r : Nat) (events : List Event)
    (hr1 : 1 ≤ r) (hr60 : r ≤ 60)
    (hrate : s.pollRate = r) (hctr : s.pollCtr = 0) (hq : s.cmdQueue = [])
    (hev : ∀ e ∈ events, e = Event.tick ∨ ∃ rd, e = Event.serial rd) :
    (r ∣ tickCount events + 1 →
        (tickHandler (run s events)).serialOut
            = (run s events).serialOut
              ++ ["A=".toList ++ fmtInt s.xplrcsAddress ++ " R=1\r".toList]
        ∧ (tickHandler (run s events)).pollPending = true)
    ∧ (¬ r ∣ tickCount events + 1 →
        (tickHandler (run s events)).serialOut = (run s events).serialOut
        ∧ (tickHandler (run s events)).pollPending = (run s events).pollPending) := by
  obtain ⟨h1, h2, h3, h4⟩ := run_idle_invariant s r hr1 hr60 hrate hctr hq events hev
  have hmod : tickCount events % r < r := Nat.mod_lt _ (by omega)
  have hw : wrapShort ((run s events).pollCtr + 1) = ((tickCount events % r : Nat) : Int) + 1 := by
    rw [h4]; unfold wrapShort; omega
  rw [tickHandler_empty_queue _ h2, hw, h1, h3]
  constructor
  · intro hdvd
    have hz : (tickCount events % r + 1) % r = 0 := by
      rw [← succ_mod_eq]; exact Nat.mod_eq_zero_of_dvd hdvd
    have heq : tickCount events % r + 1 = r := by
      rcases Nat.lt_or_ge (tickCount events % r + 1) r with hlt | hge
      · rw [Nat.mod_eq_of_lt hlt] at hz; omega
      · omega
    have hge : ((tickCount events % r : Nat) : Int) + 1 ≥ (r : Int) := by omega
    rw [if_pos hge]
    exact ⟨rfl, rfl⟩
  · intro hndvd
    have hlt : tickCount events % r + 1 < r := by
      rcases Nat.lt_or_ge (tickCount events % r + 1) r with hlt | hge
      · exact hlt
      · exfalso
        apply hndvd
        have heq : tickCount events % r + 1 = r := by omega
        apply Nat.dvd_of_mod_eq_zero
        rw [succ_mod_eq, heq, Nat.mod_self]
    have hge : ¬ (((tickCount events % r : Nat) : Int) + 1 ≥ (r : Int)) := by omega
    rw [if_neg hge]
    exact ⟨rfl, rfl⟩

/-- Witness of C4: with the poll rate at 30, the 30th tick after start-up
transmits the poll request "A=1 R=1\r" and sets `pollPending`. -/
theorem poll_every_pollRate_ticks_witness :
    (tickHandler (run { initialState 1 "30".toList with pollRate := 30 }
        (List.replicate 29 Event.tick))).serialOut
      = (run { initialState 1 "30".toList with pollRate := 30 }
          (List.replicate 29 Event.tick)).serialOut ++ ["A=1 R=1\r".toList]
    ∧ (tickHandler (run { initialState 1 "30".toList with pollRate := 30 }
        (List.replicate 29 Event.tick))).pollPending = true :=
  (poll_every_pollRate_ticks { initialState 1 "30".toList with pollRate := 30 } 30
    (List.replicate 29 Event.tick) (by decide) (by decide) rfl rfl rfl
    (fun _ he => Or.inl (List.eq_of_mem_replicate he))).1 (by decide)

/-! ## Inbound commands: the basic schema -/

theorem matchCommand_of_not_mem (commandList : List CString) (command : CString)
    (h : command ∉ commandList) : matchCommand commandList command = commandList.length := by
  induction commandList with
  | nil => rfl
  | cons c rest ih =>
    have hne : command ≠ c := fun hc => h (hc ▸ List.mem_cons_self _ _)
    have hrest : command ∉ rest := fun hc => h (List.mem_cons_of_mem _ hc)
    simp [matchCommand, hne, ih hrest]

theorem matchCommand_basic (command : CString) :
    matchCommand basicCommandList command =
      if command = "hvac-mode".toList then 0
      else if command = "fan-mode".toList then 1 else 2 := by
  simp only [matchCommand, basicCommandList]
  split_ifs <;> rfl

/-- C5. For every non-broadcast command message of class "hvac" and type
"basic" that carries a zone field, whatever its value, and whose command and
mode fields form one of the six pairs of the vocabulary, `xPLListener` appends
exactly one entry of kind Basic at the tail of the queue, with text "A=1"
followed by the suffix mapped to the pair, and changes nothing else. -/
theorem basic_command_translation (s : State) (m : xPL_Message)
    (zone command mode suffix : CString)
    (hb : m.isBroadcastMessage = false)
    (hk : m.messageType = xPL_MessageType.xPL_MESSAGE_COMMAND)
    (hclass : m.schemaClass = "hvac".toList)
    (htype : m.schemaType = "basic".toList)
    (hzone : xPL_getMessageNamedValue m "zone".toList = some zone)
    (hcommand : xPL_getMessageNamedValue m "command".toList = some command)
    (hmode : xPL_getMessageNamedValue m "mode".toList = some mode)
    (hvocab : (command, mode, suffix) ∈
      [("hvac-mode".toList, "off".toList, " M=O".toList),
       ("hvac-mode".toList, "heat".toList, " M=H".toList),
       ("hvac-mode".toList, "cool".toList, " M=C".toList),
       ("hvac-mode".toList, "auto".toList, " M=A".toList),
       ("fan-mode".toList, "auto".toList, " FM=0".toList),
       ("fan-mode".toList, "on".toList, " FM=1".toList)]) :
    xPLListener s m =
      { s with cmdQueue :=
          s.cmdQueue ++ [CmdEntry_t.mk ("A=1".toList ++ suffix) CmdType_t.CMDTYPE_BASIC] } := by
  have hnt : ¬ ("basic".toList = "transp".toList) := by decide
  have hc : (match matchCommand basicCommandList command with
      | 0 => doHVACMode "A=1".toList m zone
      | 1 => doFanMode "A=1".toList m zone
      | _ => none) = some ("A=1".toList ++ suffix) := by
    simp only [List.mem_cons, Prod.mk.injEq, List.mem_nil_iff, or_false] at hvocab
    rcases hvocab with ⟨h1, h2, h3⟩ | ⟨h1, h2, h3⟩ | ⟨h1, h2, h3⟩ | ⟨h1, h2, h3⟩ |
        ⟨h1, h2, h3⟩ | ⟨h1, h2, h3⟩ <;>
      · subst h1 h2 h3
        simp only [matchCommand_basic, doHVACMode, doFanMode, hmode]
        rfl
  simp only [xPLListener, hb, hk, hclass, htype, hnt, hzone, hcommand,
    Bool.not_false, if_true, if_false, queueCommand_eq_append, hc]

/-- Witness of C5: zone=1, command=hvac-mode, mode=cool queues one Basic entry
whose text, upper-cased, is "A=1 M=C". -/
theorem basic_command_translation_witness :
    xPLListener (initialState 1 "5".toList)
        (xPL_Message.mk false xPL_MessageType.xPL_MESSAGE_COMMAND "hvac".toList "basic".toList
          (some [xPL_NameValuePair.mk "zone".toList "1".toList false,
                 xPL_NameValuePair.mk "command".toList "hvac-mode".toList false,
                 xPL_NameValuePair.mk "mode".toList "cool".toList false]))
      = { initialState 1 "5".toList with
            cmdQueue := [CmdEntry_t.mk "A=1 M=C".toList CmdType_t.CMDTYPE_BASIC] }
    ∧ str2Upper "A=1 M=C".toList = "A=1 M=C".toList :=
  ⟨basic_command_translation (initialState 1 "5".toList)
      (xPL_Message.mk false xPL_MessageType.xPL_MESSAGE_COMMAND "hvac".toList "basic".toList
        (some [xPL_NameValuePair.mk "zone".toList "1".toList false,
               xPL_NameValuePair.mk "command".toList "hvac-mode".toList false,
               xPL_NameValuePair.mk "mode".toList "cool".toList false]))
      "1".toList "hvac-mode".toList "cool".toList " M=C".toList
      rfl rfl rfl rfl (by decide) (by decide) (by decide) (by decide),
   by decide⟩

/-! ## Inbound commands: what is ignored -/

theorem xPLListener_basic (s : State) (m : xPL_Message)
    (htype : m.schemaType = "basic".toList) :
    xPLListener s m =
      if !m.isBroadcastMessage then
        if m.messageType = xPL_MessageType.xPL_MESSAGE_COMMAND then
          if m.schemaClass = "hvac".toList then
            match xPL_getMessageNamedValue m "command".toList with
            | some command =>
              match (match xPL_getMessageNamedValue m "zone".toList with
                | some zone =>
                  match matchCommand basicCommandList command with
                  | 0 => doHVACMode "A=1".toList m zone
                  | 1 => doFanMode "A=1".toList m zone
                  | _ => none
                | none => none) with
              | some c =>
                { s with cmdQueue := queueCommand s.cmdQueue c CmdType_t.CMDTYPE_BASIC }
              | none => s
            | none => s
          else s
        else s
      else s := by
  have hnt : ¬ ("basic".toList = "transp".toList) := by decide
  simp only [xPLListener, htype, hnt, if_true, if_false]

theorem basic_command_rejected (m : xPL_Message)
    (h : xPL_getMessageNamedValue m "command".toList = none
      ∨ xPL_getMessageNamedValue m "zone".toList = none
      ∨ xPL_getMessageNamedValue m "mode".toList = none
      ∨ (∃ command, xPL_getMessageNamedValue m "command".toList = some command
          ∧ command ≠ "hvac-mode".toList ∧ command ≠ "fan-mode".toList)
      ∨ (xPL_getMessageNamedValue m "command".toList = some "hvac-mode".toList
          ∧ ∃ mode, xPL_getMessageNamedValue m "mode".toList = some mode ∧ mode ∉ modeList)
      ∨ (xPL_getMessageNamedValue m "command".toList = some "fan-mode".toList
          ∧ ∃ mode, xPL_getMessageNamedValue m "mode".toList = some mode
            ∧ mode ∉ fanModeList)) :
    ∀ command, xPL_getMessageNamedValue m "command".toList = some command →
      (match xPL_getMessageNamedValue m "zone".toList with
        | some zone =>
          match matchCommand basicCommandList command with
          | 0 => doHVACMode "A=1".toList m zone
          | 1 => doFanMode "A=1".toList m zone
          | _ => none
        | none => none) = none := by
  intro command hcommand
  rcases h with h | h | h | ⟨c, hc, h1, h2⟩ | ⟨hc, mode, hmode, hnot⟩ | ⟨hc, mode, hmode, hnot⟩
  · rw [h] at hcommand; exact Option.noConfusion hcommand
  · rw [h]
  · cases hz : xPL_getMessageNamedValue m "zone".toList with
    | none => rfl
    | some zone =>
      simp only [matchCommand_basic, doHVACMode, doFanMode, h]
      split_ifs <;> rfl
  · cases hz : xPL_getMessageNamedValue m "zone".toList with
    | none => rfl
    | some zone =>
      have hcc : command = c := Option.some.inj (hcommand.symm.trans hc)
      subst hcc
      simp only [matchCommand_basic, h1, h2, if_false]
  · cases hz : xPL_getMessageNamedValue m "zone".toList with
    | none => rfl
    | some zone =>
      have hcc : command = "hvac-mode".toList := Option.some.inj (hcommand.symm.trans hc)
      subst hcc
      have hlen := matchCommand_of_not_mem modeList mode hnot
      simp only [matchCommand_basic, if_true, doHVACMode, hmode, hlen]
      rfl
  · cases hz : xPL_getMessageNamedValue m "zone".toList with
    | none => rfl
    | some zone =>
      have hcc : command = "fan-mode".toList := Option.some.inj (hcommand.symm.trans hc)
      subst hcc
      have hlen := matchCommand_of_not_mem fanModeList mode hnot
      have hne : ¬ ("fan-mode".toList = "hvac-mode".toList) := by decide
      simp only [matchCommand_basic, hne, if_true, if_false, doFanMode, hmode, hlen]
      rfl

/-- C6. `xPLListener` leaves the command queue, and the whole state, unchanged
for a broadcast message, a message whose kind is not command, a class other
than "hvac", the type "request" or any type other than the transparent one
("transp" in the source) and "basic", and a basic message with a missing
command, zone or mode field, a command outside hvac-mode and fan-mode, or a
mode outside the vocabulary of its command. -/
theorem invalid_message_ignored (s : State) (m : xPL_Message)
    (h : m.isBroadcastMessage = true
      ∨ m.messageType ≠ xPL_MessageType.xPL_MESSAGE_COMMAND
      ∨ m.schemaClass ≠ "hvac".toList
      ∨ m.schemaType = "request".toList
      ∨ (m.schemaType ≠ "transp".toList ∧ m.schemaType ≠ "basic".toList)
      ∨ (m.schemaType = "basic".toList
          ∧ (xPL_getMessageNamedValue m "command".toList = none
            ∨ xPL_getMessageNamedValue m "zone".toList = none
            ∨ xPL_getMessageNamedValue m "mode".toList = none
            ∨ (∃ command, xPL_getMessageNamedValue m "command".toList = some command
                ∧ command ≠ "hvac-mode".toList ∧ command ≠ "fan-mode".toList)
            ∨ (xPL_getMessageNamedValue m "command".toList = some "hvac-mode".toList
                ∧ ∃ mode, xPL_getMessageNamedValue m "mode".toList = some mode
                  ∧ mode ∉ modeList)
            ∨ (xPL_getMessageNamedValue m "command".toList = some "fan-mode".toList
                ∧ ∃ mode, xPL_getMessageNamedValue m "mode".toList = some mode
                  ∧ mode ∉ fanModeList)))) :
    xPLListener s m = s ∧ (xPLListener s m).cmdQueue = s.cmdQueue := by
  have key : xPLListener s m = s := by
    rcases h with h | h | h | h | ⟨h1, h2⟩ | ⟨htype, h⟩
    · simp only [xPLListener, h, Bool.not_true]
      rfl
    · simp only [xPLListener, h, if_false]
      split_ifs <;> rfl
    · simp only [xPLListener, h, if_false]
      split_ifs <;> rfl
    · have hn1 : ¬ ("request".toList = "transp".toList) := by decide
      have hn2 : ¬ ("request".toList = "basic".toList) := by decide
      simp only [xPLListener, h, hn1, hn2, if_false, if_true]
      split_ifs <;> rfl
    · simp only [xPLListener, h1, h2, if_false]
      split_ifs <;> rfl
    · rw [xPLListener_basic s m htype]
      have hrej := basic_command_rejected m h
      cases hcmd : xPL_getMessageNamedValue m "command".toList with
      | none =>
        simp only
        split_ifs <;> rfl
      | some command =>
        simp only [hrej command hcmd]
        split_ifs <;> rfl
  exact ⟨key, by rw [key]⟩

/-- Witness of C6: zone=1, command=hvac-mode, mode=balmy queues nothing. -/
theorem invalid_message_ignored_witness :
    (xPLListener (initialState 1 "5".toList)
        (xPL_Message.mk false xPL_MessageType.xPL_MESSAGE_COMMAND "hvac".toList "basic".toList
          (some [xPL_NameValuePair.mk "zone".toList "1".toList false,
                 xPL_NameValuePair.mk "command".toList "hvac-mode".toList false,
                 xPL_NameValuePair.mk "mode".toList "balmy".toList false]))).cmdQueue = [] :=
  (invalid_message_ignored (initialState 1 "5".toList)
      (xPL_Message.mk false xPL_MessageType.xPL_MESSAGE_COMMAND "hvac".toList "basic".toList
        (some [xPL_NameValuePair.mk "zone".toList "1".toList false,
               xPL_NameValuePair.mk "command".toList "hvac-mode".toList false,
               xPL_NameValuePair.mk "mode".toList "balmy".toList false]))
      (Or.inr (Or.inr (Or.inr (Or.inr (Or.inr ⟨rfl,
        Or.inr (Or.inr (Or.inr (Or.inr (Or.inl
          ⟨by decide, "balmy".toList, by decide, by decide⟩))))⟩)))))).2

/-! ## Serial lines: an unchanged poll response -/

/-- C7. After `serioHandler` has processed a line `L` of at most 255
characters as a poll response, `lastLine` is `L`; and in every later state
with `pollPending` set and `lastLine` still as that call left it, processing
`L` again only clears `pollPending`: no field is set on the trigger message,
nothing is sent on the bus and `lastLine` stays `L`. -/
theorem repeated_poll_line_is_silent (s : State) (L : CString)
    (hlen : L.length ≤ 255) (hp : s.pollPending = true) :
    (serioHandler s (some L)).lastLine = L
    ∧ ∀ s2 : State, s2.pollPending = true →
        s2.lastLine = (serioHandler s (some L)).lastLine →
        serioHandler s2 (some L) = { s2 with pollPending := false }
        ∧ (serioHandler s2 (some L)).xplrcsTriggerMessage = s2.xplrcsTriggerMessage
        ∧ (serioHandler s2 (some L)).busOut = s2.busOut
        ∧ (serioHandler s2 (some L)).lastLine = L := by
  have h1 : (serioHandler s (some L)).lastLine = L := by
    by_cases heq : L = s.lastLine
    · simp only [serioHandler, hp, if_true, heq, ne_eq, not_true_eq_false, if_false]
    · simp only [serioHandler, hp, if_true, ne_eq, heq, not_false_eq_true]
      exact List.take_of_length_le (by simpa [WS_SIZE] using hlen)
  refine ⟨h1, fun s2 hp2 hl2 => ?_⟩
  rw [h1] at hl2
  have h2 : serioHandler s2 (some L) = { s2 with pollPending := false } := by
    simp only [serioHandler, hp2, if_true, hl2, ne_eq, not_true_eq_false, if_false]
  rw [h2]
  exact ⟨rfl, rfl, rfl, hl2⟩

/-- Witness of C7: the line "A=1 M=O FM=0" received twice as a poll response,
the first time right after start-up. -/
theorem repeated_poll_line_is_silent_witness :
    (serioHandler { initialState 1 "5".toList with pollPending := true }
        (some "A=1 M=O FM=0".toList)).lastLine = "A=1 M=O FM=0".toList
    ∧ (serioHandler
        { serioHandler { initialState 1 "5".toList with pollPending := true }
            (some "A=1 M=O FM=0".toList) with pollPending := true }
        (some "A=1 M=O FM=0".toList)).busOut
      = (serioHandler { initialState 1 "5".toList with pollPending := true }
            (some "A=1 M=O FM=0".toList)).busOut :=
  ⟨(repeated_poll_line_is_silent { initialState 1 "5".toList with pollPending := true }
      "A=1 M=O FM=0".toList (by decide) rfl).1,
   ((repeated_poll_line_is_silent { initialState 1 "5".toList with pollPending := true }
      "A=1 M=O FM=0".toList (by decide) rfl).2
      { serioHandler { initialState 1 "5".toList with pollPending := true }
          (some "A=1 M=O FM=0".toList) with pollPending := true }
      rfl rfl).2.2.1⟩

/-! ## The tokenizer and its limit -/

theorem strtok_r_rest_lt (cs arg rest : CString) (h : strtok_r cs = some (arg, rest)) :
    rest.length < cs.length := by
  unfold strtok_r at h
  split at h
  · exact Option.noConfusion h
  · next c r heq =>
    have hrest : rest = ((c :: r).dropWhile (· != ' ')).drop 1 :=
      ((Prod.mk.inj (Option.some.inj h)).2).symm
    have hc : (c == ' ') = false := by
      have hmem := List.head_dropWhile_not (· == ' ') cs (by rw [heq]; exact List.cons_ne_nil _ _)
      simpa [heq] using hmem
    have hne : (c != ' ') = true := by simp [bne, hc]
    have h1 : (List.dropWhile (· != ' ') (c :: r)).length ≤ r.length := by
      rw [List.dropWhile_cons, if_pos hne]
      exact (List.dropWhile_sublist _).length_le
    have h2 : (c :: r).length ≤ cs.length := by
      rw [← heq]; exact (List.dropWhile_sublist _).length_le
    rw [hrest, List.length_drop]
    simp only [List.length_cons] at h2
    omega

theorem parseLoop_length_le (limit : Nat) :
    ∀ cs : CString, (parseLoop limit cs).length ≤ cs.length := by
  induction limit with
  | zero => intro cs; simp [parseLoop]
  | succ n ih =>
    intro cs
    unfold parseLoop
    split
    · simp
    · next arg rest heq =>
      have := strtok_r_rest_lt cs arg rest heq
      have := ih rest
      simp only [List.length_cons]
      omega

theorem parseLoop_take (n : Nat) :
    ∀ (m : Nat) (cs : CString), n ≤ m → parseLoop n cs = (parseLoop m cs).take n := by
  induction n with
  | zero => intro m cs _; simp [parseLoop]
  | succ n ih =>
    intro m cs hle
    obtain ⟨k, rfl⟩ : ∃ k, m = k + 1 := ⟨m - 1, by omega⟩
    unfold parseLoop
    split
    · simp
    · next arg rest heq =>
      simp only [List.take_succ_cons]
      rw [ih k rest (by omega)]

theorem parseRC65Status_eq_take (ws : CString) (limit : Nat) :
    parseRC65Status ws limit = (tokens ws).take limit := by
  have hloop : parseRC65Status ws limit = parseLoop limit ws := by
    unfold parseRC65Status
    split_ifs with h0
    · have hnil : ws = [] := List.length_eq_zero.mp h0
      subst hnil
      cases limit <;> simp [parseLoop, strtok_r]
    · rfl
  rw [hloop]
  unfold tokens
  rcases Nat.le_total limit (ws.length + 1) with hle | hge
  · exact parseLoop_take limit (ws.length + 1) ws hle
  · have h1 := parseLoop_take (ws.length + 1) limit ws hge
    have h2 := parseLoop_length_le limit ws
    rw [h1, List.take_take]
    rw [List.take_of_length_le (by omega)]

/-! ## Cutting a token at its separator -/

theorem take_indexOf_eq (arg : CString) : arg.take (arg.indexOf '=') = keyOf arg := by
  unfold keyOf
  induction arg with
  | nil => rfl
  | cons c cs ih =>
    by_cases hc : c = '='
    · subst hc
      simp [List.indexOf_cons_self, List.takeWhile_cons]
    · rw [List.indexOf_cons_ne _ hc, List.take_succ_cons, ih, List.takeWhile_cons]
      simp [hc]

theorem drop_indexOf_eq (arg : CString) : arg.drop (arg.indexOf '=' + 1) = valueOf arg := by
  unfold valueOf
  induction arg with
  | nil => rfl
  | cons c cs ih =>
    by_cases hc : c = '='
    · subst hc
      simp [List.indexOf_cons_self, List.dropWhile_cons]
    · rw [List.indexOf_cons_ne _ hc, List.drop_succ_cons, ih, List.dropWhile_cons]
      simp [hc]

theorem lower_take_eq (arg : CString) :
    (str2Lower arg).take (arg.indexOf '=') = (fieldOf arg).1 := by
  simp only [fieldOf, str2Lower, ← take_indexOf_eq, List.map_take]

theorem lower_drop_eq (arg : CString) :
    (str2Lower arg).drop (arg.indexOf '=' + 1) = (fieldOf arg).2 := by
  simp only [fieldOf, str2Lower, ← drop_indexOf_eq, List.map_drop]

theorem toLower_eq_separator (c : Char) : c.toLower = '=' ↔ c = '=' := by
  constructor
  · intro h
    unfold Char.toLower at h
    simp only at h
    split_ifs at h with hr
    · exfalso
      have hc : c = Char.ofNat c.toNat := (Char.ofNat_toNat c).symm
      obtain ⟨h1, h2⟩ := hr
      generalize c.toNat = n at h h1 h2
      interval_cases n <;> exact absurd h (by decide)
    · exact h
  · rintro rfl; decide

theorem lower_mem_separator (arg : CString) : '=' ∈ str2Lower arg ↔ '=' ∈ arg := by
  simp only [str2Lower, List.mem_map]
  constructor
  · rintro ⟨c, hc, heq⟩
    rw [(toLower_eq_separator c).mp heq] at hc
    exact hc
  · intro h
    exact ⟨'=', h, by decide⟩

theorem lower_indexOf_separator (arg : CString) :
    (str2Lower arg).indexOf '=' = arg.indexOf '=' := by
  induction arg with
  | nil => rfl
  | cons c cs ih =>
    by_cases hc : c = '='
    · subst hc
      simp [str2Lower, List.indexOf_cons_self]
    · have hl : c.toLower ≠ '=' := fun h => hc ((toLower_eq_separator c).mp h)
      simp only [str2Lower, List.map_cons] at ih ⊢
      rw [List.indexOf_cons_ne _ hc, List.indexOf_cons_ne _ hl, ih]

/-! ## The loops of `serioHandler` -/

theorem setFields_cons (msg : FieldSet) (arg : CString) (rest : List CString) :
    setFields msg (arg :: rest)
      = setFields (xPL_setMessageNamedValue msg (fieldOf arg).1 (fieldOf arg).2) rest := rfl

theorem reportable_iff (arg : CString) :
    reportable arg = true ↔ '=' ∈ arg ∧ (fieldOf arg).1 ≠ "a".toList := by
  simp [reportable, fieldOf]

theorem triggerLoop_step (arg : CString) (curRest lastArgs : List CString) (sendAll : Bool)
    (msg : FieldSet) (hsend : (sendAll || lastArgs.head? != some arg) = true) :
    triggerLoop (arg :: curRest) lastArgs sendAll msg =
      if '=' ∈ arg then
        if reportable arg then
          triggerLoop curRest lastArgs.tail sendAll
            (xPL_setMessageNamedValue msg (fieldOf arg).1 (fieldOf arg).2)
        else triggerLoop curRest lastArgs.tail sendAll msg
      else triggerLoop curRest lastArgs.tail true msg := by
  rw [triggerLoop, if_pos hsend]
  by_cases hmem : '=' ∈ arg
  · simp only [hmem, if_true, lower_take_eq, lower_drop_eq]
    by_cases hkey : (fieldOf arg).1 = "a".toList
    · have hr : ¬ (reportable arg = true) := by
        rw [reportable_iff]; exact fun h => h.2 hkey
      rw [if_neg (not_not.mpr hkey), if_neg hr]
    · have hr : reportable arg = true := (reportable_iff arg).mpr ⟨hmem, hkey⟩
      rw [if_pos hkey, if_pos hr]
  · simp only [hmem, if_false]

theorem triggerLoop_skip (arg : CString) (curRest lastArgs : List CString)
    (msg : FieldSet) (hsame : lastArgs.head? = some arg) :
    triggerLoop (arg :: curRest) lastArgs false msg
      = triggerLoop curRest lastArgs.tail false msg := by
  rw [triggerLoop, if_neg]
  simp [hsame]

theorem triggerLoop_sendAll (cur : List CString) :
    ∀ (lastArgs : List CString) (msg : FieldSet),
      triggerLoop cur lastArgs true msg = setFields msg (cur.filter reportable) := by
  induction cur with
  | nil => intro lastArgs msg; rfl
  | cons arg rest ih =>
    intro lastArgs msg
    rw [triggerLoop_step arg rest lastArgs true msg (by simp)]
    by_cases hr : reportable arg = true
    · have hmem : '=' ∈ arg := ((reportable_iff arg).mp hr).1
      simp only [hmem, hr, if_true, List.filter_cons_of_pos, setFields_cons, ih]
    · have hrf : reportable arg = false := by simpa using hr
      rw [List.filter_cons_of_neg hr]
      split_ifs <;> simp_all [ih]

theorem triggerLoop_diff (cur : List CString) :
    ∀ (lastArgs : List CString) (msg : FieldSet),
      cur.length = lastArgs.length → (∀ arg ∈ cur, '=' ∈ arg) →
      triggerLoop cur lastArgs false msg
        = setFields msg ((changedArgs cur lastArgs).filter reportable) := by
  induction cur with
  | nil => intro lastArgs msg _ _; cases lastArgs <;> rfl
  | cons arg rest ih =>
    intro lastArgs msg hlen hsep
    cases lastArgs with
    | nil => simp at hlen
    | cons last lastRest =>
      have hlen2 : rest.length = lastRest.length := by simpa using hlen
      have hsep2 : ∀ a ∈ rest, '=' ∈ a := fun a ha => hsep a (List.mem_cons_of_mem _ ha)
      have hmem : '=' ∈ arg := hsep arg (List.mem_cons_self _ _)
      by_cases hsame : arg = last
      · subst hsame
        rw [triggerLoop_skip arg rest (arg :: lastRest) msg rfl]
        simp only [List.tail_cons, changedArgs, ne_eq, not_true_eq_false, if_false]
        exact ih lastRest msg hlen2 hsep2
      · have hne : (false || (last :: lastRest).head? != some arg) = true := by
          simp [Ne.symm hsame]
        rw [triggerLoop_step arg rest _ false msg hne]
        simp only [hmem, if_true, List.tail_cons, changedArgs, ne_eq, hsame,
          not_false_eq_true]
        by_cases hr : reportable arg = true
        · simp only [hr, if_true, List.filter_cons_of_pos, setFields_cons]
          exact ih lastRest _ hlen2 hsep2
        · rw [List.filter_cons_of_neg hr]
          simp only [hr, if_false]
          exact ih lastRest msg hlen2 hsep2

theorem statusLoop_eq (cur : List CString) :
    ∀ msg : FieldSet, statusLoop cur msg = setFields msg (cur.filter reportable) := by
  induction cur with
  | nil => intro msg; rfl
  | cons arg rest ih =>
    intro msg
    rw [statusLoop]
    simp only [lower_mem_separator, lower_indexOf_separator, lower_take_eq, lower_drop_eq]
    by_cases hr : reportable arg = true
    · obtain ⟨hmem, hkey⟩ := (reportable_iff arg).mp hr
      simp only [hmem, if_true, ne_eq, hkey, not_false_eq_true, List.filter_cons_of_pos hr,
        setFields_cons, ih]
    · rw [List.filter_cons_of_neg hr]
      by_cases hmem : '=' ∈ arg
      · have hkey : (fieldOf arg).1 = "a".toList := by
          by_contra hk
          exact hr ((reportable_iff arg).mpr ⟨hmem, hk⟩)
        simp only [hmem, if_true, ne_eq, hkey, not_true_eq_false, if_false, ih]
      · simp only [hmem, if_false, ih]

/-! ## What a message holds after the fields of some tokens were set -/

theorem setNamedValue_keys (msg : FieldSet) (theName theValue k : CString) :
    k ∈ (xPL_setMessageNamedValue msg theName theValue).map Prod.fst
      ↔ k ∈ msg.map Prod.fst ∨ k = theName := by
  induction msg with
  | nil => simp [xPL_setMessageNamedValue]
  | cons nv rest ih =>
    obtain ⟨n, v⟩ := nv
    unfold xPL_setMessageNamedValue
    split_ifs with h
    · subst h
      simp only [List.map_cons, List.mem_cons]
      tauto
    · simp only [List.map_cons, List.mem_cons, ih]
      tauto

theorem setNamedValue_mem (msg : FieldSet) (theName theValue : CString)
    (f : CString × CString) (hf : f ∈ xPL_setMessageNamedValue msg theName theValue) :
    f ∈ msg ∨ f = (theName, theValue) := by
  induction msg with
  | nil => right; simpa [xPL_setMessageNamedValue] using hf
  | cons nv rest ih =>
    obtain ⟨n, v⟩ := nv
    unfold xPL_setMessageNamedValue at hf
    split_ifs at hf with h
    · subst h
      rcases List.mem_cons.mp hf with h1 | h1
      · right; exact h1
      · left; exact List.mem_cons_of_mem _ h1
    · rcases List.mem_cons.mp hf with h1 | h1
      · left; rw [h1]; exact List.mem_cons_self _ _
      · rcases ih h1 with h2 | h2
        · left; exact List.mem_cons_of_mem _ h2
        · right; exact h2

theorem setFields_keys (args : List CString) :
    ∀ (msg : FieldSet) (k : CString),
      k ∈ (setFields msg args).map Prod.fst
        ↔ k ∈ msg.map Prod.fst ∨ ∃ arg ∈ args, k = (fieldOf arg).1 := by
  induction args with
  | nil => intro msg k; simp [setFields]
  | cons a rest ih =>
    intro msg k
    rw [setFields_cons, ih, setNamedValue_keys]
    simp only [List.mem_cons, exists_eq_or_imp]
    tauto

theorem setFields_mem (args : List CString) :
    ∀ (msg : FieldSet) (f : CString × CString), f ∈ setFields msg args →
      f ∈ msg ∨ ∃ arg ∈ args, f = fieldOf arg := by
  induction args with
  | nil => intro msg f hf; left; exact hf
  | cons a rest ih =>
    intro msg f hf
    rw [setFields_cons] at hf
    rcases ih _ f hf with h | ⟨arg, harg, h⟩
    · rcases setNamedValue_mem msg _ _ f h with h1 | h1
      · left; exact h1
      · right; exact ⟨a, List.mem_cons_self _ _, h1⟩
    · right; exact ⟨arg, List.mem_cons_of_mem _ harg, h⟩

theorem changedArgs_mem (cur : List CString) :
    ∀ (lastArgs : List CString) (a : CString),
      a ∈ changedArgs cur lastArgs ↔
        ∃ (i : Nat) (h1 : i < cur.length) (h2 : i < lastArgs.length),
          cur[i] ≠ lastArgs[i] ∧ a = cur[i] := by
  induction cur with
  | nil => intro lastArgs a; simp [changedArgs]
  | cons arg rest ih =>
    intro lastArgs a
    cases lastArgs with
    | nil => simp [changedArgs]
    | cons last lastRest =>
      unfold changedArgs
      constructor
      · intro h
        split_ifs at h with hne
        · rcases List.mem_cons.mp h with h1 | h1
          · exact ⟨0, by simp, by simp, by simpa using hne, by simpa using h1⟩
          · obtain ⟨i, h2, h3, h4, h5⟩ := (ih lastRest a).mp h1
            exact ⟨i + 1, by simpa using h2, by simpa using h3, by simpa using h4,
              by simpa using h5⟩
        · obtain ⟨i, h2, h3, h4, h5⟩ := (ih lastRest a).mp h
          exact ⟨i + 1, by simpa using h2, by simpa using h3, by simpa using h4,
            by simpa using h5⟩
      · rintro ⟨i, h1, h2, h3, h4⟩
        cases i with
        | zero =>
          have hne : arg ≠ last := by simpa using h3
          rw [if_pos hne]
          simp only [List.getElem_cons_zero] at h4
          rw [h4]; exact List.mem_cons_self _ _
        | succ j =>
          have hin : a ∈ changedArgs rest lastRest :=
            (ih lastRest a).mpr ⟨j, by simpa using h1, by simpa using h2,
              by simpa using h3, by simpa using h4⟩
          split_ifs
          · exact List.mem_cons_of_mem _ hin
          · exact hin

theorem triggerLoop_mem (cur : List CString) :
    ∀ (lastArgs : List CString) (sendAll : Bool) (msg : FieldSet) (f : CString × CString),
      f ∈ triggerLoop cur lastArgs sendAll msg →
        f ∈ msg ∨ ∃ arg ∈ cur, reportable arg = true ∧ f = fieldOf arg := by
  induction cur with
  | nil => intro lastArgs sendAll msg f hf; left; exact hf
  | cons arg rest ih =>
    intro lastArgs sendAll msg f hf
    have lift : (f ∈ msg ∨ ∃ a ∈ rest, reportable a = true ∧ f = fieldOf a) →
        f ∈ msg ∨ ∃ a ∈ arg :: rest, reportable a = true ∧ f = fieldOf a := by
      rintro (h | ⟨a, ha, h⟩)
      · left; exact h
      · right; exact ⟨a, List.mem_cons_of_mem _ ha, h⟩
    by_cases hsend : (sendAll || lastArgs.head? != some arg) = true
    · rw [triggerLoop_step arg rest lastArgs sendAll msg hsend] at hf
      split_ifs at hf with hmem hr
      · rcases ih _ _ _ f hf with h | h
        · rcases setNamedValue_mem msg _ _ f h with h1 | h1
          · left; exact h1
          · right; exact ⟨arg, List.mem_cons_self _ _, hr, h1⟩
        · exact lift (Or.inr h)
      · exact lift (ih _ _ _ f hf)
      · exact lift (ih _ _ _ f hf)
    · rw [triggerLoop, if_neg hsend] at hf
      exact lift (ih _ _ _ f hf)

/-! ## Poll responses: the full report on a token-count mismatch -/

theorem serioHandler_poll_changed (s : State) (line : CString)
    (hp : s.pollPending = true) (hne : line ≠ s.lastLine) :
    serioHandler s (some line) =
      { s with
          pollPending := false,
          xplrcsTriggerMessage :=
            triggerLoop ((tokens line).take 19) ((tokens s.lastLine).take 19)
              (((tokens s.lastLine).take 19).length != ((tokens line).take 19).length) [],
          busOut := s.busOut ++ [SentMessage.mk xPL_MessageType.xPL_MESSAGE_TRIGGER
            (triggerLoop ((tokens line).take 19) ((tokens s.lastLine).take 19)
              (((tokens s.lastLine).take 19).length != ((tokens line).take 19).length) [])],
          lastLine := line.take (WS_SIZE - 1) } := by
  simp only [serioHandler, hp, if_true, ne_eq, hne, not_false_eq_true,
    parseRC65Status_eq_take, xPL_clearMessageNamedValues]

/-- C8, as stated, fails: the previous line has 19 tokens and the current line
the same 19 tokens followed by a 20th, every token has an `=`, yet the trigger
message that is sent holds no field at all, not even that of the token "B=2"
of the current line. -/
theorem token_count_mismatch_counterexample :
    "B=2".toList ∈ tokens "A=1 B=2 C=3 D=4 E=5 F=6 G=7 H=8 I=9 J=1 K=2 L=3 M=4 N=5 O=6 P=7 Q=8 R=9 S=1 T=2".toList
    ∧ (tokens "A=1 B=2 C=3 D=4 E=5 F=6 G=7 H=8 I=9 J=1 K=2 L=3 M=4 N=5 O=6 P=7 Q=8 R=9 S=1 T=2".toList).length
      ≠ (tokens "A=1 B=2 C=3 D=4 E=5 F=6 G=7 H=8 I=9 J=1 K=2 L=3 M=4 N=5 O=6 P=7 Q=8 R=9 S=1".toList).length
    ∧ (∀ arg ∈ tokens "A=1 B=2 C=3 D=4 E=5 F=6 G=7 H=8 I=9 J=1 K=2 L=3 M=4 N=5 O=6 P=7 Q=8 R=9 S=1 T=2".toList,
        '=' ∈ arg)
    ∧ (serioHandler
        { initialState 1 "5".toList with
            pollPending := true,
            lastLine := "A=1 B=2 C=3 D=4 E=5 F=6 G=7 H=8 I=9 J=1 K=2 L=3 M=4 N=5 O=6 P=7 Q=8 R=9 S=1".toList }
        (some "A=1 B=2 C=3 D=4 E=5 F=6 G=7 H=8 I=9 J=1 K=2 L=3 M=4 N=5 O=6 P=7 Q=8 R=9 S=1 T=2".toList)).busOut
      = [SentMessage.mk xPL_MessageType.xPL_MESSAGE_TRIGGER []] := by
  decide

/-- C8, amended. On a poll response, whenever the number of tokens of the
current line, counted up to the limit of 19, differs from that of `lastLine`
counted the same way (in particular on the first poll after start-up, when
`lastLine` is empty and the line has a token), and each of the first 19 tokens
of the current line has an `=`, the trigger message that is sent holds the
fields of all the first 19 tokens of the current line other than the address,
changed or not: it is the field set built from them in order, so the key of
every one of them is on it. -/
theorem token_count_mismatch_full_report (s : State) (line : CString)
    (hp : s.pollPending = true)
    (hcount : min (tokens line).length 19 ≠ min (tokens s.lastLine).length 19)
    (hsep : ∀ arg ∈ (tokens line).take 19, '=' ∈ arg) :
    (serioHandler s (some line)).xplrcsTriggerMessage
        = setFields [] (((tokens line).take 19).filter
            (fun arg => str2Lower (keyOf arg) != "a".toList))
    ∧ (serioHandler s (some line)).busOut
        = s.busOut ++ [SentMessage.mk xPL_MessageType.xPL_MESSAGE_TRIGGER
            (serioHandler s (some line)).xplrcsTriggerMessage]
    ∧ ∀ arg ∈ (tokens line).take 19, str2Lower (keyOf arg) ≠ "a".toList →
        str2Lower (keyOf arg) ∈ (serioHandler s (some line)).xplrcsTriggerMessage.map Prod.fst := by
  have hne : line ≠ s.lastLine := by
    intro h
    rw [h] at hcount
    exact hcount rfl
  have hall : (((tokens s.lastLine).take 19).length != ((tokens line).take 19).length) = true := by
    simp only [List.length_take, bne_iff_ne, ne_eq]
    intro h
    apply hcount
    omega
  have hfilter : ((tokens line).take 19).filter reportable
      = ((tokens line).take 19).filter (fun arg => str2Lower (keyOf arg) != "a".toList) := by
    apply List.filter_congr
    intro arg harg
    simp [reportable, hsep arg harg]
  have htrig : (serioHandler s (some line)).xplrcsTriggerMessage
      = setFields [] (((tokens line).take 19).filter
          (fun arg => str2Lower (keyOf arg) != "a".toList)) := by
    rw [serioHandler_poll_changed s line hp hne, hall, triggerLoop_sendAll, hfilter]
  refine ⟨htrig, ?_, ?_⟩
  · rw [serioHandler_poll_changed s line hp hne]
  · intro arg harg hkey
    rw [htrig, setFields_keys]
    right
    refine ⟨arg, List.mem_filter.mpr ⟨harg, ?_⟩, rfl⟩
    simpa using hkey

/-- Witness of C8: previous "A=1 M=O", current "A=1 M=O FM=1": the trigger
message holds the field of M and the field of FM. -/
theorem token_count_mismatch_full_report_witness :
    (serioHandler
        { initialState 1 "5".toList with pollPending := true, lastLine := "A=1 M=O".toList }
        (some "A=1 M=O FM=1".toList)).xplrcsTriggerMessage
      = [("m".toList, "o".toList), ("fm".toList, "1".toList)] :=
  (token_count_mismatch_full_report
    { initialState 1 "5".toList with pollPending := true, lastLine := "A=1 M=O".toList }
    "A=1 M=O FM=1".toList rfl (by decide) (by decide)).1.trans (by decide)

/-! ## Poll responses: the positional difference -/

/-- C9. On a poll response whose line differs from `lastLine`, with the same
number of tokens, at most 19, each token of the line having an `=`: the trigger
message that is sent carries exactly the keys that are the lower-cased key of a
token of the current line which differs from the token at the same position of
the previous line and whose key is not the address key "a". -/
theorem positional_diff_keys (s : State) (line : CString)
    (hp : s.pollPending = true) (hne : line ≠ s.lastLine)
    (hcount : (tokens line).length = (tokens s.lastLine).length)
    (hlimit : (tokens line).length ≤ 19)
    (hsep : ∀ arg ∈ tokens line, '=' ∈ arg) :
    (serioHandler s (some line)).busOut
        = s.busOut ++ [SentMessage.mk xPL_MessageType.xPL_MESSAGE_TRIGGER
            (serioHandler s (some line)).xplrcsTriggerMessage]
    ∧ ∀ k : CString,
        k ∈ (serioHandler s (some line)).xplrcsTriggerMessage.map Prod.fst ↔
          ∃ (i : Nat) (h1 : i < (tokens line).length) (h2 : i < (tokens s.lastLine).length),
            (tokens line)[i] ≠ (tokens s.lastLine)[i]
            ∧ k = str2Lower (keyOf (tokens line)[i])
            ∧ k ≠ "a".toList := by
  have hcur : (tokens line).take 19 = tokens line := List.take_of_length_le hlimit
  have hlast : (tokens s.lastLine).take 19 = tokens s.lastLine :=
    List.take_of_length_le (by omega)
  have hflag : ((tokens s.lastLine).length != (tokens line).length) = false := by
    simp [hcount]
  have hstate := serioHandler_poll_changed s line hp hne
  rw [hcur, hlast, hflag, triggerLoop_diff _ _ _ hcount hsep] at hstate
  refine ⟨by rw [hstate], fun k => ?_⟩
  rw [hstate]
  simp only [setFields_keys, List.map_nil, List.not_mem_nil, false_or, List.mem_filter,
    changedArgs_mem, reportable_iff]
  constructor
  · rintro ⟨arg, ⟨⟨i, h1, h2, hdiff, harg⟩, -, hkey⟩, hk⟩
    subst harg
    refine ⟨i, h1, h2, hdiff, hk, ?_⟩
    rw [hk]; exact hkey
  · rintro ⟨i, h1, h2, hdiff, hk, hkey⟩
    refine ⟨(tokens line)[i], ⟨⟨i, h1, h2, hdiff, rfl⟩, hsep _ (List.getElem_mem _), ?_⟩, hk⟩
    rw [hk] at hkey; exact hkey

/-- Witness of C9: previous "A=1 M=O FM=0", current "A=2 M=O FM=1": the token
at position 2 differs and its key is not the address, so "fm" is a key of the
trigger message. -/
theorem positional_diff_keys_witness :
    "fm".toList ∈ (serioHandler
        { initialState 1 "5".toList with
            pollPending := true, lastLine := "A=1 M=O FM=0".toList }
        (some "A=2 M=O FM=1".toList)).xplrcsTriggerMessage.map Prod.fst :=
  ((positional_diff_keys
    { initialState 1 "5".toList with pollPending := true, lastLine := "A=1 M=O FM=0".toList }
    "A=2 M=O FM=1".toList rfl (by decide) (by decide) (by decide) (by decide)).2
      "fm".toList).mpr ⟨2, by decide, by decide, by decide, by decide, by decide⟩

/-! ## Names and values of the reported fields -/

/-- C10, as stated, fails: with previous "A=1 M=O FM=0" and current
"A=1 M=H FM=0" as a poll response, the one field on the trigger message is
named "m" and its value is "h"; no field of the message has the value "H" of
the serial line. -/
theorem reported_value_counterexample :
    (serioHandler
        { initialState 1 "5".toList with
            pollPending := true, lastLine := "A=1 M=O FM=0".toList }
        (some "A=1 M=H FM=0".toList)).busOut
      = [SentMessage.mk xPL_MessageType.xPL_MESSAGE_TRIGGER [("m".toList, "h".toList)]]
    ∧ ¬ ∃ f ∈ (serioHandler
          { initialState 1 "5".toList with
              pollPending := true, lastLine := "A=1 M=O FM=0".toList }
          (some "A=1 M=H FM=0".toList)).xplrcsTriggerMessage,
        f.2 = "H".toList := by
  decide

/-- C10, amended. Every field of a message `serioHandler` sends, trigger or
status, comes from one of the first 19 tokens `KEY=VALUE` of the received line:
its name is the lower-cased KEY and its value is the lower-cased VALUE.  In
particular, with previous "A=1 M=O FM=0" and current "A=1 M=H FM=0" as a poll
response, the trigger message sent holds exactly one field, named "m", and its
value is "h". -/
theorem reported_fields_lowercased (s : State) (line : CString) :
    (∀ sent : SentMessage, (serioHandler s (some line)).busOut = s.busOut ++ [sent] →
      ∀ f ∈ sent.fields, ∃ arg ∈ (tokens line).take 19,
        '=' ∈ arg ∧ f.1 = str2Lower (keyOf arg) ∧ f.2 = str2Lower (valueOf arg))
    ∧ (s.pollPending = true → s.lastLine = "A=1 M=O FM=0".toList →
        (serioHandler s (some "A=1 M=H FM=0".toList)).busOut
          = s.busOut ++ [SentMessage.mk xPL_MessageType.xPL_MESSAGE_TRIGGER
              [("m".toList, "h".toList)]]) := by
  constructor
  · intro sent hsent f hf
    have hfrom : ∀ fields : FieldSet, f ∈ fields →
        (∀ g ∈ fields, ∃ arg ∈ (tokens line).take 19, reportable arg = true ∧ g = fieldOf arg) →
        ∃ arg ∈ (tokens line).take 19,
          '=' ∈ arg ∧ f.1 = str2Lower (keyOf arg) ∧ f.2 = str2Lower (valueOf arg) := by
      intro fields hmem hall
      obtain ⟨arg, harg, hr, hg⟩ := hall f hmem
      exact ⟨arg, harg, ((reportable_iff arg).mp hr).1, by rw [hg]; rfl, by rw [hg]; rfl⟩
    by_cases hp : s.pollPending = true
    · by_cases hne : line = s.lastLine
      · exfalso
        have hsame : (serioHandler s (some line)).busOut = s.busOut := by
          simp only [serioHandler, hp, if_true, hne, ne_eq, not_true_eq_false, if_false]
        rw [hsame] at hsent
        have hlen := congrArg List.length hsent
        simp at hlen
      · rw [serioHandler_poll_changed s line hp hne] at hsent
        have hs := List.append_cancel_left hsent
        have hfields : sent.fields = triggerLoop ((tokens line).take 19)
            ((tokens s.lastLine).take 19)
            (((tokens s.lastLine).take 19).length != ((tokens line).take 19).length) [] := by
          rw [← (List.cons.inj hs).1]
        rw [hfields] at hf
        apply hfrom _ hf
        intro g hg
        rcases triggerLoop_mem _ _ _ _ g hg with h | h
        · exact absurd h (List.not_mem_nil _)
        · exact h
    · have hstate : (serioHandler s (some line)).busOut
          = s.busOut ++ [SentMessage.mk xPL_MessageType.xPL_MESSAGE_STATUS
              (setFields [] (((tokens line).take 19).filter reportable))] := by
        simp only [serioHandler, hp, if_false, parseRC65Status_eq_take, statusLoop_eq,
          xPL_clearMessageNamedValues]
        rfl
      rw [hstate] at hsent
      have hs := List.append_cancel_left hsent
      have hfields : sent.fields
          = setFields [] (((tokens line).take 19).filter reportable) := by
        rw [← (List.cons.inj hs).1]
      rw [hfields] at hf
      apply hfrom _ hf
      intro g hg
      rcases setFields_mem _ _ g hg with h | ⟨arg, harg, h⟩
      · exact absurd h (List.not_mem_nil _)
      · exact ⟨arg, (List.mem_filter.mp harg).1, (List.mem_filter.mp harg).2, h⟩
  · intro hp hl
    have hne : "A=1 M=H FM=0".toList ≠ s.lastLine := by rw [hl]; decide
    rw [serioHandler_poll_changed s _ hp hne, hl]
    have hcomp : triggerLoop ((tokens "A=1 M=H FM=0".toList).take 19)
        ((tokens "A=1 M=O FM=0".toList).take 19)
        (((tokens "A=1 M=O FM=0".toList).take 19).length
          != ((tokens "A=1 M=H FM=0".toList).take 19).length) []
        = [("m".toList, "h".toList)] := by decide
    rw [hcomp]

/-- Witness of C10: the example of the claim, right after start-up. -/
theorem reported_fields_lowercased_witness :
    (serioHandler
        { initialState 1 "5".toList with
            pollPending := true, lastLine := "A=1 M=O FM=0".toList }
        (some "A=1 M=H FM=0".toList)).busOut
      = [] ++ [SentMessage.mk xPL_MessageType.xPL_MESSAGE_TRIGGER [("m".toList, "h".toList)]] :=
  (reported_fields_lowercased
    { initialState 1 "5".toList with pollPending := true, lastLine := "A=1 M=O FM=0".toList }
    "A=1 M=H FM=0".toList).2 rfl rfl

/-! ## Serial lines: the address field -/

theorem serioHandler_not_poll (s : State) (line : CString) (hp : s.pollPending = false) :
    serioHandler s (some line) =
      { s with
          xplrcsStatusMessage := setFields [] (((tokens line).take 19).filter reportable),
          busOut := s.busOut ++ [SentMessage.mk xPL_MessageType.xPL_MESSAGE_STATUS
            (setFields [] (((tokens line).take 19).filter reportable))] } := by
  simp only [serioHandler, hp, Bool.false_eq_true, if_false, parseRC65Status_eq_take,
    statusLoop_eq, xPL_clearMessageNamedValues]

theorem serioHandler_poll_same (s : State) (hp : s.pollPending = true) :
    serioHandler s (some s.lastLine) = { s with pollPending := false } := by
  simp only [serioHandler, hp, if_true, ne_eq, not_true_eq_false, if_false]

/-- C11. For every state and every outcome of the line read, `serioHandler`
sends at most one message, and no message it sends, trigger or status, holds a
field named "a": the address token is left out whether it changed or not and
whatever the case of its key. -/
theorem address_never_reported (s : State) (rd : Option CString) :
    ∃ new : List SentMessage,
      (serioHandler s rd).busOut = s.busOut ++ new ∧ new.length ≤ 1
      ∧ ∀ sent ∈ new, ∀ f ∈ sent.fields, f.1 ≠ "a".toList := by
  have hkey : ∀ (toks : List CString) (f : CString × CString),
      (∃ arg ∈ toks, reportable arg = true ∧ f = fieldOf arg) → f.1 ≠ "a".toList := by
    rintro toks f ⟨arg, -, hr, rfl⟩
    exact ((reportable_iff arg).mp hr).2
  cases rd with
  | none => exact ⟨[], by simp [serioHandler], by simp, by simp⟩
  | some line =>
    by_cases hp : s.pollPending = true
    · by_cases hne : line = s.lastLine
      · subst hne
        exact ⟨[], by rw [serioHandler_poll_same s hp]; simp, by simp, by simp⟩
      · refine ⟨_, by rw [serioHandler_poll_changed s line hp hne], by simp, ?_⟩
        intro sent hsent f hf
        rw [List.mem_singleton] at hsent
        subst hsent
        rcases triggerLoop_mem _ _ _ _ f hf with h | h
        · exact absurd h (List.not_mem_nil _)
        · exact hkey _ f h
    · have hp2 : s.pollPending = false := by simpa using hp
      refine ⟨_, by rw [serioHandler_not_poll s line hp2], by simp, ?_⟩
      intro sent hsent f hf
      rw [List.mem_singleton] at hsent
      subst hsent
      rcases setFields_mem _ _ f hf with h | ⟨arg, harg, h⟩
      · exact absurd h (List.not_mem_nil _)
      · exact hkey _ f ⟨arg, (List.mem_filter.mp harg).1, (List.mem_filter.mp harg).2, h⟩

/-! ## Serial lines: the full status report -/

theorem setNamedValue_new (msg : FieldSet) (theName theValue : CString)
    (h : theName ∉ msg.map Prod.fst) :
    xPL_setMessageNamedValue msg theName theValue = msg ++ [(theName, theValue)] := by
  induction msg with
  | nil => rfl
  | cons nv rest ih =>
    obtain ⟨n, v⟩ := nv
    simp only [List.map_cons, List.mem_cons, not_or] at h
    have hne : ¬ (n = theName) := fun hc => h.1 hc.symm
    simp only [xPL_setMessageNamedValue, hne, if_false, ih h.2, List.cons_append]

theorem setFields_nodup (args : List CString) :
    ∀ msg : FieldSet,
      (∀ arg ∈ args, (fieldOf arg).1 ∉ msg.map Prod.fst) →
      (args.map (fun arg => (fieldOf arg).1)).Nodup →
      setFields msg args = msg ++ args.map fieldOf := by
  induction args with
  | nil => intro msg _ _; simp [setFields]
  | cons a rest ih =>
    intro msg hfresh hnodup
    rw [setFields_cons, setNamedValue_new msg _ _ (hfresh a (List.mem_cons_self _ _))]
    simp only [List.map_cons, List.nodup_cons] at hnodup
    rw [ih _ ?_ hnodup.2]
    · simp
    · intro b hb hmem
      simp only [List.map_append, List.map_cons, List.map_nil, List.mem_append,
        List.mem_singleton] at hmem
      rcases hmem with h | h
      · exact hfresh b (List.mem_cons_of_mem _ hb) h
      · exact hnodup.1 (List.mem_map.mpr ⟨b, hb, h⟩)

/-- C12. For every line received while `pollPending` is false, `serioHandler`
sends exactly one message, a status message, and no trigger message.  The
status message is the field set built, in order, from those of the first 19
tokens of the line that have an `=` and whose key is not the address: its keys
are exactly their keys, every field on it is the field of one of them, and when
their keys are distinct it lists their fields one by one.  `lastLine`,
`pollPending`, the command queue and the poll rate are unchanged. -/
theorem non_poll_line_full_status (s : State) (line : CString)
    (hp : s.pollPending = false) :
    (serioHandler s (some line)).busOut
        = s.busOut ++ [SentMessage.mk xPL_MessageType.xPL_MESSAGE_STATUS
            (serioHandler s (some line)).xplrcsStatusMessage]
    ∧ (serioHandler s (some line)).xplrcsStatusMessage
        = setFields [] (((tokens line).take 19).filter reportable)
    ∧ (∀ k : CString, k ∈ (serioHandler s (some line)).xplrcsStatusMessage.map Prod.fst ↔
        ∃ arg ∈ (tokens line).take 19,
          '=' ∈ arg ∧ str2Lower (keyOf arg) ≠ "a".toList ∧ k = str2Lower (keyOf arg))
    ∧ (∀ f ∈ (serioHandler s (some line)).xplrcsStatusMessage,
        ∃ arg ∈ (tokens line).take 19,
          '=' ∈ arg ∧ str2Lower (keyOf arg) ≠ "a".toList ∧ f = fieldOf arg)
    ∧ (((((tokens line).take 19).filter reportable).map
          (fun arg => str2Lower (keyOf arg))).Nodup →
        (serioHandler s (some line)).xplrcsStatusMessage
          = (((tokens line).take 19).filter reportable).map fieldOf)
    ∧ (serioHandler s (some line)).xplrcsTriggerMessage = s.xplrcsTriggerMessage
    ∧ (serioHandler s (some line)).lastLine = s.lastLine
    ∧ (serioHandler s (some line)).pollPending = false
    ∧ (serioHandler s (some line)).cmdQueue = s.cmdQueue
    ∧ (serioHandler s (some line)).pollRate = s.pollRate := by
  rw [serioHandler_not_poll s line hp]
  refine ⟨rfl, rfl, ?_, ?_, ?_, rfl, rfl, hp, rfl, rfl⟩
  · intro k
    simp only [setFields_keys, List.map_nil, List.not_mem_nil, false_or, List.mem_filter,
      reportable_iff]
    constructor
    · rintro ⟨arg, ⟨harg, hsep, hkey⟩, hk⟩
      exact ⟨arg, harg, hsep, hkey, hk⟩
    · rintro ⟨arg, harg, hsep, hkey, hk⟩
      exact ⟨arg, ⟨harg, hsep, hkey⟩, hk⟩
  · intro f hf
    rcases setFields_mem _ _ f hf with h | ⟨arg, harg, h⟩
    · exact absurd h (List.not_mem_nil _)
    · obtain ⟨h1, h2⟩ := List.mem_filter.mp harg
      exact ⟨arg, h1, ((reportable_iff arg).mp h2).1, ((reportable_iff arg).mp h2).2, h⟩
  · intro hnodup
    have := setFields_nodup (((tokens line).take 19).filter reportable) [] (by simp) hnodup
    simpa using this

/-- Witness of C12: the command response "A=1 M=H FM=0 X" right after start-up
gives the status message m=h, fm=0. -/
theorem non_poll_line_full_status_witness :
    (serioHandler (initialState 1 "5".toList) (some "A=1 M=H FM=0 X".toList)).xplrcsStatusMessage
      = [("m".toList, "h".toList), ("fm".toList, "0".toList)] :=
  (non_poll_line_full_status (initialState 1 "5".toList) "A=1 M=H FM=0 X".toList rfl).2.1.trans
    (by decide)

/-! ## Inbound commands: the transparent schema -/

theorem xPLListener_transp (s : State) (m : xPL_Message) (body : List xPL_NameValuePair)
    (hb : m.isBroadcastMessage = false)
    (hk : m.messageType = xPL_MessageType.xPL_MESSAGE_COMMAND)
    (hclass : m.schemaClass = "hvac".toList)
    (htype : m.schemaType = "transp".toList)
    (hbody : m.messageBody = some body) :
    xPLListener s m =
      { s with cmdQueue := s.cmdQueue ++
          [CmdEntry_t.mk
            (transpLoop body (addressPrefix s.xplrcsAddress)
              (addressPrefix s.xplrcsAddress).length)
            CmdType_t.CMDTYPE_TRANSP] } := by
  simp only [xPLListener, hb, hk, hclass, htype, hbody, Bool.not_false, if_true,
    queueCommand_eq_append, addressPrefix]

/-- C13, as stated, fails: a non-broadcast command message of class "hvac" and
type "transparent" that has a body leaves the command queue empty. -/
theorem transparent_literal_counterexample :
    (xPLListener (initialState 1 "5".toList)
        (xPL_Message.mk false xPL_MessageType.xPL_MESSAGE_COMMAND "hvac".toList
          "transparent".toList
          (some [xPL_NameValuePair.mk "sp".toList "70".toList false]))).cmdQueue = [] := by
  decide

/-- C13, amended. For every non-broadcast command message of class "hvac" and
type "transp", the type name the listener compares with, that has a message
body, `xPLListener` appends exactly one entry of kind Transparent to the
command queue and changes nothing else. -/
theorem transp_command_queued (s : State) (m : xPL_Message) (body : List xPL_NameValuePair)
    (hb : m.isBroadcastMessage = false)
    (hk : m.messageType = xPL_MessageType.xPL_MESSAGE_COMMAND)
    (hclass : m.schemaClass = "hvac".toList)
    (htype : m.schemaType = "transp".toList)
    (hbody : m.messageBody = some body) :
    ∃ text : CString,
      xPLListener s m =
        { s with cmdQueue := s.cmdQueue ++ [CmdEntry_t.mk text CmdType_t.CMDTYPE_TRANSP] } :=
  ⟨_, xPLListener_transp s m body hb hk hclass htype hbody⟩

/-- Witness of C13: the same message with the type "transp" queues one
Transparent entry. -/
theorem transp_command_queued_witness :
    ∃ text : CString,
      xPLListener (initialState 1 "5".toList)
          (xPL_Message.mk false xPL_MessageType.xPL_MESSAGE_COMMAND "hvac".toList
            "transp".toList (some [xPL_NameValuePair.mk "sp".toList "70".toList false]))
        = { initialState 1 "5".toList with
              cmdQueue := [] ++ [CmdEntry_t.mk text CmdType_t.CMDTYPE_TRANSP] } :=
  transp_command_queued (initialState 1 "5".toList)
    (xPL_Message.mk false xPL_MessageType.xPL_MESSAGE_COMMAND "hvac".toList
      "transp".toList (some [xPL_NameValuePair.mk "sp".toList "70".toList false]))
    [xPL_NameValuePair.mk "sp".toList "70".toList false] rfl rfl rfl rfl rfl

/-! ## Command and poll in flight -/

theorem xPLListener_frame (s : State) (m : xPL_Message) :
    ∃ q : List CmdEntry_t, xPLListener s m = { s with cmdQueue := q } := by
  have hs : ∃ q : List CmdEntry_t, s = { s with cmdQueue := q } := ⟨s.cmdQueue, rfl⟩
  unfold xPLListener
  repeat' split
  all_goals first
    | exact hs
    | exact ⟨_, rfl⟩
    | (dsimp only; split <;> first | exact hs | exact ⟨_, rfl⟩)

theorem tickHandler_nonempty_queue (s : State) (e : CmdEntry_t) (rest : List CmdEntry_t)
    (hq : s.cmdQueue = e :: rest) :
    tickHandler s =
      { s with pollCtr := wrapShort (s.pollCtr + 1), cmdQueue := rest,
               serialOut := s.serialOut ++ [str2Upper e.cmd ++ ['\r']] } := by
  simp only [tickHandler, hq, dequeueCommand_cons]

theorem serioHandler_clears_pollPending (s : State) (line : CString) :
    (serioHandler s (some line)).pollPending = false := by
  by_cases hp : s.pollPending = true
  · simp only [serioHandler, hp, if_true]
    split_ifs <;> rfl
  · have hp2 : s.pollPending = false := by simpa using hp
    rw [serioHandler_not_poll s line hp2]
    exact hp2

/-- C14, as stated, fails: from the initial state with the poll rate at 5, five
ticks (the fifth polls), then a basic command message, then one more tick (it
transmits the command): no serial line was received, `pollPending` is true and
a command is in flight. -/
theorem both_in_flight_counterexample :
    pollInFlight (flightRun (initialFlight 1 "5".toList)
        (List.replicate 5 Event.tick ++
          [Event.message
            (xPL_Message.mk false xPL_MessageType.xPL_MESSAGE_COMMAND "hvac".toList
              "basic".toList
              (some [xPL_NameValuePair.mk "zone".toList "1".toList false,
                     xPL_NameValuePair.mk "command".toList "hvac-mode".toList false,
                     xPL_NameValuePair.mk "mode".toList "cool".toList false])),
           Event.tick])) = true
    ∧ (flightRun (initialFlight 1 "5".toList)
        (List.replicate 5 Event.tick ++
          [Event.message
            (xPL_Message.mk false xPL_MessageType.xPL_MESSAGE_COMMAND "hvac".toList
              "basic".toList
              (some [xPL_NameValuePair.mk "zone".toList "1".toList false,
                     xPL_NameValuePair.mk "command".toList "hvac-mode".toList false,
                     xPL_NameValuePair.mk "mode".toList "cool".toList false])),
           Event.tick])).commandInFlight = true := by
  decide

theorem flightStep_tick_nonempty (f : Flight) (e : CmdEntry_t) (rest : List CmdEntry_t)
    (hq : f.state.cmdQueue = e :: rest) :
    (flightStep f Event.tick).commandInFlight = true
    ∧ pollInFlight (flightStep f Event.tick) = pollInFlight f
    ∧ (tickHandler f.state).serialOut = f.state.serialOut ++ [str2Upper e.cmd ++ ['\r']] := by
  refine ⟨?_, ?_, ?_⟩
  · simp only [flightStep, hq, dequeueCommand_cons, Option.isSome_some, Bool.true_or]
  · simp only [pollInFlight, flightStep, tickHandler_nonempty_queue f.state e rest hq]
  · rw [tickHandler_nonempty_queue f.state e rest hq]

theorem flightStep_tick_empty (f : Flight) (hq : f.state.cmdQueue = []) :
    (flightStep f Event.tick).commandInFlight = f.commandInFlight
    ∧ (((tickHandler f.state).serialOut = f.state.serialOut
          ∧ pollInFlight (flightStep f Event.tick) = pollInFlight f)
        ∨ ((tickHandler f.state).serialOut
              = f.state.serialOut ++ [pollRequest f.state.xplrcsAddress]
          ∧ pollInFlight (flightStep f Event.tick) = true)) := by
  refine ⟨?_, ?_⟩
  · simp only [flightStep, hq, dequeueCommand, Option.isSome_none, Bool.false_or]
  · simp only [pollInFlight, flightStep]
    rw [tickHandler_empty_queue f.state hq]
    split_ifs
    · right; exact ⟨rfl, rfl⟩
    · left; exact ⟨rfl, rfl⟩

theorem flightStep_keeps_invariant (f : Flight) (e : Event)
    (hinv : ¬ (f.commandInFlight = true ∧ pollInFlight f = true))
    (hquiet : e = Event.tick → f.commandInFlight = false ∧ pollInFlight f = false) :
    ¬ ((flightStep f e).commandInFlight = true ∧ pollInFlight (flightStep f e) = true) := by
  rintro ⟨h1, h2⟩
  cases e with
  | message m =>
    apply hinv
    have hp : pollInFlight (flightStep f (Event.message m)) = pollInFlight f := by
      simp only [pollInFlight, flightStep]
      obtain ⟨q, hq⟩ := xPLListener_frame f.state m
      rw [hq]
    rw [hp] at h2
    exact ⟨h1, h2⟩
  | tick =>
    obtain ⟨hc, hp⟩ := hquiet rfl
    by_cases hq : f.state.cmdQueue = []
    · rw [(flightStep_tick_empty f hq).1, hc] at h1
      exact Bool.noConfusion h1
    · obtain ⟨c, rest, hcons⟩ := List.exists_cons_of_ne_nil hq
      rw [(flightStep_tick_nonempty f c rest hcons).2.1, hp] at h2
      exact Bool.noConfusion h2
  | serial rd =>
    cases rd with
    | none => exact hinv ⟨h1, h2⟩
    | some line =>
      simp only [flightStep] at h1
      exact Bool.noConfusion h1

theorem flightRun_keeps_invariant (events : List Event) :
    ∀ f : Flight, ¬ (f.commandInFlight = true ∧ pollInFlight f = true) →
      ticksFindNothingInFlight f events = true →
      ∀ n : Nat,
        ¬ ((flightRun f (events.take n)).commandInFlight = true
            ∧ pollInFlight (flightRun f (events.take n)) = true) := by
  induction events with
  | nil => intro f hinv _ n; simpa [flightRun] using hinv
  | cons e rest ih =>
    intro f hinv hquiet n
    cases n with
    | zero => simpa [flightRun] using hinv
    | succ n =>
      have hstep : (e = Event.tick → f.commandInFlight = false ∧ pollInFlight f = false)
          ∧ ticksFindNothingInFlight (flightStep f e) rest = true := by
        cases e with
        | message m =>
          exact ⟨fun h => Event.noConfusion h, by simpa [ticksFindNothingInFlight] using hquiet⟩
        | tick =>
          simp only [ticksFindNothingInFlight, Bool.and_eq_true, Bool.not_eq_true'] at hquiet
          exact ⟨fun _ => ⟨hquiet.1.1, hquiet.1.2⟩, hquiet.2⟩
        | serial rd =>
          exact ⟨fun h => Event.noConfusion h, by simpa [ticksFindNothingInFlight] using hquiet⟩
      have hnext := ih (flightStep f e) (flightStep_keeps_invariant f e hinv hstep.1) hstep.2 n
      simpa [flightRun, List.take_succ_cons] using hnext

/-- C14, amended. Over the events {inbound bus message, tick, serial line
received}, from the initial state, on every run in which each tick finds
nothing in flight (the line answering a poll or a command is received before
the next tick): in every state the run goes through, at most one of 'poll in
flight' and 'command in flight' is true.  The two are tied to what
`tickHandler` writes: a tick on a non-empty queue writes the head command,
puts a command in flight and leaves `pollPending` as it was; a tick on an empty
queue leaves the command flag as it was and either writes nothing or writes the
poll request and sets `pollPending`; a received serial line ends both. -/
theorem at_most_one_in_flight_on_answered_runs (address : Int) (storedPrate : CString)
    (events : List Event)
    (hquiet : ticksFindNothingInFlight (initialFlight address storedPrate) events = true) :
    (∀ n : Nat,
        ¬ ((flightRun (initialFlight address storedPrate) (events.take n)).commandInFlight
              = true
            ∧ pollInFlight (flightRun (initialFlight address storedPrate) (events.take n))
              = true))
    ∧ (∀ (e : CmdEntry_t) (rest : List CmdEntry_t),
        (flightRun (initialFlight address storedPrate) events).state.cmdQueue = e :: rest →
        (flightStep (flightRun (initialFlight address storedPrate) events)
            Event.tick).commandInFlight = true
        ∧ pollInFlight (flightStep (flightRun (initialFlight address storedPrate) events)
            Event.tick)
          = pollInFlight (flightRun (initialFlight address storedPrate) events)
        ∧ (tickHandler (flightRun (initialFlight address storedPrate) events).state).serialOut
          = (flightRun (initialFlight address storedPrate) events).state.serialOut
              ++ [str2Upper e.cmd ++ ['\r']])
    ∧ ((flightRun (initialFlight address storedPrate) events).state.cmdQueue = [] →
        (flightStep (flightRun (initialFlight address storedPrate) events)
            Event.tick).commandInFlight
          = (flightRun (initialFlight address storedPrate) events).commandInFlight
        ∧ (((tickHandler
                (flightRun (initialFlight address storedPrate) events).state).serialOut
              = (flightRun (initialFlight address storedPrate) events).state.serialOut
            ∧ pollInFlight (flightStep (flightRun (initialFlight address storedPrate) events)
                Event.tick)
              = pollInFlight (flightRun (initialFlight address storedPrate) events))
          ∨ ((tickHandler
                (flightRun (initialFlight address storedPrate) events).state).serialOut
              = (flightRun (initialFlight address storedPrate) events).state.serialOut
                  ++ [pollRequest
                    (flightRun (initialFlight address storedPrate) events).state.xplrcsAddress]
            ∧ pollInFlight (flightStep (flightRun (initialFlight address storedPrate) events)
                Event.tick) = true)))
    ∧ (∀ line : CString,
        (flightStep (flightRun (initialFlight address storedPrate) events)
            (Event.serial (some line))).commandInFlight = false
        ∧ pollInFlight (flightStep (flightRun (initialFlight address storedPrate) events)
            (Event.serial (some line))) = false) := by
  have hinit : ¬ ((initialFlight address storedPrate).commandInFlight = true
      ∧ pollInFlight (initialFlight address storedPrate) = true) := by
    rintro ⟨h, -⟩
    exact Bool.noConfusion h
  refine ⟨flightRun_keeps_invariant events _ hinit hquiet, ?_, ?_, ?_⟩
  · intro e rest hq
    exact flightStep_tick_nonempty _ e rest hq
  · intro hq
    exact flightStep_tick_empty _ hq
  · intro line
    exact ⟨rfl, serioHandler_clears_pollPending _ line⟩

/-- Witness of C14: poll rate 5, five ticks (the fifth polls), the answering
line, a basic command message and one more tick (it transmits the command):
every tick finds nothing in flight; after the fifth event a poll is in flight,
at the end a command is, and never both. -/
theorem at_most_one_in_flight_on_answered_runs_witness :
    pollInFlight (flightRun (initialFlight 1 "5".toList)
        ((List.replicate 5 Event.tick ++
          [Event.serial (some "A=1 M=O".toList),
           Event.message
            (xPL_Message.mk false xPL_MessageType.xPL_MESSAGE_COMMAND "hvac".toList
              "basic".toList
              (some [xPL_NameValuePair.mk "zone".toList "1".toList false,
                     xPL_NameValuePair.mk "command".toList "hvac-mode".toList false,
                     xPL_NameValuePair.mk "mode".toList "cool".toList false])),
           Event.tick]).take 5)) = true
    ∧ (flightRun (initialFlight 1 "5".toList)
        ((List.replicate 5 Event.tick ++
          [Event.serial (some "A=1 M=O".toList),
           Event.message
            (xPL_Message.mk false xPL_MessageType.xPL_MESSAGE_COMMAND "hvac".toList
              "basic".toList
              (some [xPL_NameValuePair.mk "zone".toList "1".toList false,
                     xPL_NameValuePair.mk "command".toList "hvac-mode".toList false,
                     xPL_NameValuePair.mk "mode".toList "cool".toList false])),
           Event.tick]).take 8)).commandInFlight = true
    ∧ ¬ ((flightRun (initialFlight 1 "5".toList)
          ((List.replicate 5 Event.tick ++
            [Event.serial (some "A=1 M=O".toList),
             Event.message
              (xPL_Message.mk false xPL_MessageType.xPL_MESSAGE_COMMAND "hvac".toList
                "basic".toList
                (some [xPL_NameValuePair.mk "zone".toList "1".toList false,
                       xPL_NameValuePair.mk "command".toList "hvac-mode".toList false,
                       xPL_NameValuePair.mk "mode".toList "cool".toList false])),
             Event.tick]).take 8)).commandInFlight = true
        ∧ pollInFlight (flightRun (initialFlight 1 "5".toList)
          ((List.replicate 5 Event.tick ++
            [Event.serial (some "A=1 M=O".toList),
             Event.message
              (xPL_Message.mk false xPL_MessageType.xPL_MESSAGE_COMMAND "hvac".toList
                "basic".toList
                (some [xPL_NameValuePair.mk "zone".toList "1".toList false,
                       xPL_NameValuePair.mk "command".toList "hvac-mode".toList false,
                       xPL_NameValuePair.mk "mode".toList "cool".toList false])),
             Event.tick]).take 8)) = true) :=
  ⟨by decide, by decide,
   (at_most_one_in_flight_on_answered_runs 1 "5".toList
      (List.replicate 5 Event.tick ++
        [Event.serial (some "A=1 M=O".toList),
         Event.message
          (xPL_Message.mk false xPL_MessageType.xPL_MESSAGE_COMMAND "hvac".toList
            "basic".toList
            (some [xPL_NameValuePair.mk "zone".toList "1".toList false,
                   xPL_NameValuePair.mk "command".toList "hvac-mode".toList false,
                   xPL_NameValuePair.mk "mode".toList "cool".toList false])),
         Event.tick])
      (by decide)).1 8⟩

/-! ## Scheduler: the rule of the design -/

/-- C15, as stated, fails: with one queued command and the tick counter at 0,
`tickHandler` leaves the counter at 1 where the rule of the design leaves it at
0; the counter advanced on a tick that sent a command. -/
theorem design_rule_counterexample :
    (tickHandler { initialState 1 "5".toList with
        cmdQueue := [CmdEntry_t.mk "a=1 m=c".toList CmdType_t.CMDTYPE_BASIC] }).pollCtr = 1
    ∧ (designTick { initialState 1 "5".toList with
        cmdQueue := [CmdEntry_t.mk "a=1 m=c".toList CmdType_t.CMDTYPE_BASIC] }).pollCtr = 0
    ∧ (tickHandler { initialState 1 "5".toList with
        cmdQueue := [CmdEntry_t.mk "a=1 m=c".toList CmdType_t.CMDTYPE_BASIC] }).serialOut
        = ["A=1 M=C\r".toList] := by
  decide

/-- C15, amended. For every state whose tick counter is below the top of its
16-bit range, `tickHandler` follows this three-case rule: (1) queue non-empty:
send the head and increment the tick counter by one; (2) else, the tick counter
plus one has reached the poll rate: reset the counter to zero, send the poll
request, set `pollPending`; (3) else: increment the counter by one and write
nothing.  The counter advances on every tick that does not poll. -/
theorem tick_three_cases (s : State)
    (hlo : -32768 ≤ s.pollCtr) (hhi : s.pollCtr < 32767) :
    (∀ (e : CmdEntry_t) (rest : List CmdEntry_t), s.cmdQueue = e :: rest →
        tickHandler s =
          { s with pollCtr := s.pollCtr + 1, cmdQueue := rest,
                   serialOut := s.serialOut ++ [str2Upper e.cmd ++ ['\r']] })
    ∧ (s.cmdQueue = [] → s.pollRate ≤ s.pollCtr + 1 →
        tickHandler s =
          { s with pollCtr := 0,
                   serialOut := s.serialOut ++ [pollRequest s.xplrcsAddress],
                   pollPending := true })
    ∧ (s.cmdQueue = [] → s.pollCtr + 1 < s.pollRate →
        tickHandler s = { s with pollCtr := s.pollCtr + 1 }) := by
  have hw : wrapShort (s.pollCtr + 1) = s.pollCtr + 1 := by
    unfold wrapShort; omega
  refine ⟨fun e rest hq => ?_, fun hq hge => ?_, fun hq hlt => ?_⟩
  · rw [tickHandler_nonempty_queue s e rest hq, hw]
  · rw [tickHandler_empty_queue s hq, hw, if_pos hge]
    cases s
    simp only at hq
    subst hq
    rfl
  · rw [tickHandler_empty_queue s hq, hw, if_neg (by omega)]
    cases s
    simp only at hq
    subst hq
    rfl

/-- Witness of C15: a queued command with the counter at 3 is sent and the
counter becomes 4. -/
theorem tick_three_cases_witness :
    tickHandler { initialState 1 "5".toList with
        pollCtr := 3,
        cmdQueue := [CmdEntry_t.mk "a=1 m=c".toList CmdType_t.CMDTYPE_BASIC] }
      = { initialState 1 "5".toList with
            pollCtr := 3 + 1, cmdQueue := [],
            serialOut := [] ++ [str2Upper "a=1 m=c".toList ++ ['\r']] } :=
  (tick_three_cases
    { initialState 1 "5".toList with
        pollCtr := 3,
        cmdQueue := [CmdEntry_t.mk "a=1 m=c".toList CmdType_t.CMDTYPE_BASIC] }
    (by decide) (by decide)).1 _ _ rfl

/-! ## Poll responses: a token without separator -/

/-- C16: what the code does at the failing input.  Previous line
"A=1 M=O X FM=0", current line "A=1 M=O Y FM=0": the lines differ, have four
tokens each, the token "Y" differs from "X" and has no `=`; the trigger message
sent holds the field of FM, which follows the malformed token, and not the
field of M, which precedes it. -/
theorem malformed_token_partial_report :
    (tokens "A=1 M=O Y FM=0".toList).length = (tokens "A=1 M=O X FM=0".toList).length
    ∧ "M=O".toList ∈ tokens "A=1 M=O Y FM=0".toList
    ∧ (serioHandler
        { initialState 1 "5".toList with
            pollPending := true, lastLine := "A=1 M=O X FM=0".toList }
        (some "A=1 M=O Y FM=0".toList)).busOut
      = [SentMessage.mk xPL_MessageType.xPL_MESSAGE_TRIGGER [("fm".toList, "0".toList)]]
    ∧ "m".toList ∉ (serioHandler
        { initialState 1 "5".toList with
            pollPending := true, lastLine := "A=1 M=O X FM=0".toList }
        (some "A=1 M=O Y FM=0".toList)).xplrcsTriggerMessage.map Prod.fst := by
  decide

/-! ## Poll responses: what is remembered -/

/-- C17, as stated, fails: after a poll response of 256 characters `lastLine`
is not the received line; it holds its first 255 characters. -/
theorem lastLine_truncated_counterexample :
    (serioHandler { initialState 1 "5".toList with pollPending := true }
        (some (List.replicate 256 'x'))).lastLine ≠ List.replicate 256 'x'
    ∧ (serioHandler { initialState 1 "5".toList with pollPending := true }
        (some (List.replicate 256 'x'))).lastLine = List.replicate 255 'x' := by
  have hne : List.replicate 256 'x'
      ≠ ({ initialState 1 "5".toList with pollPending := true } : State).lastLine := by
    intro h
    have hlen := congrArg List.length h
    rw [List.length_replicate] at hlen
    exact absurd hlen (by decide)
  have hlast : (serioHandler { initialState 1 "5".toList with pollPending := true }
      (some (List.replicate 256 'x'))).lastLine = List.replicate 255 'x' := by
    rw [serioHandler_poll_changed _ _ rfl hne]
    exact List.take_replicate 'x' 255 256
  refine ⟨?_, hlast⟩
  rw [hlast]
  intro h
  have hlen := congrArg List.length h
  rw [List.length_replicate, List.length_replicate] at hlen
  exact absurd hlen (by decide)

/-- C17, amended. For every state with `pollPending` true (and `lastLine`
within its buffer of 256 bytes) and every received line, after `serioHandler`
returns `lastLine` holds the first 255 characters of the received line, that
is the received line itself when it has at most 255 characters, whether the
line was identical to the previous one or not, and `pollPending` is false. -/
theorem lastLine_after_poll (s : State) (line : CString)
    (hp : s.pollPending = true) (hbuf : s.lastLine.length ≤ 255) :
    (serioHandler s (some line)).lastLine = line.take 255
    ∧ (line.length ≤ 255 → (serioHandler s (some line)).lastLine = line)
    ∧ (serioHandler s (some line)).pollPending = false := by
  have h1 : (serioHandler s (some line)).lastLine = line.take 255 := by
    by_cases hne : line = s.lastLine
    · subst hne
      rw [serioHandler_poll_same s hp]
      exact (List.take_of_length_le hbuf).symm
    · rw [serioHandler_poll_changed s line hp hne]
      rfl
  refine ⟨h1, fun hlen => ?_, serioHandler_clears_pollPending s line⟩
  rw [h1]
  exact List.take_of_length_le hlen

/-- Witness of C17: the poll response "A=1 M=O Y FM=0", with its token without
`=`, is remembered whole. -/
theorem lastLine_after_poll_witness :
    (serioHandler
        { initialState 1 "5".toList with
            pollPending := true, lastLine := "A=1 M=O X FM=0".toList }
        (some "A=1 M=O Y FM=0".toList)).lastLine = "A=1 M=O Y FM=0".toList :=
  (lastLine_after_poll
    { initialState 1 "5".toList with pollPending := true, lastLine := "A=1 M=O X FM=0".toList }
    "A=1 M=O Y FM=0".toList rfl (by decide)).2.1 (by decide)

/-! ## The transparent schema: tokens of the queued text -/

theorem toDigitsCore_chars (fuel : Nat) :
    ∀ (n : Nat) (ds : List Char) (c : Char), c ∈ Nat.toDigitsCore 10 fuel n ds →
      c ∈ ds ∨ ∃ d : Nat, d < 10 ∧ c = Nat.digitChar d := by
  induction fuel with
  | zero => intro n ds c h; left; simpa [Nat.toDigitsCore] using h
  | succ fuel ih =>
    intro n ds c h
    have hd : n % 10 < 10 := Nat.mod_lt _ (by decide)
    by_cases h0 : n / 10 = 0
    · simp only [Nat.toDigitsCore, h0, if_true, List.mem_cons] at h
      rcases h with h | h
      · right; exact ⟨n % 10, hd, h⟩
      · left; exact h
    · simp only [Nat.toDigitsCore, h0, if_false] at h
      rcases ih _ _ c h with h1 | h1
      · rcases List.mem_cons.mp h1 with h2 | h2
        · right; exact ⟨n % 10, hd, h2⟩
        · left; exact h2
      · right; exact h1

theorem fmtInt_no_space (a : Int) : ' ' ∉ fmtInt a := by
  have hdig : ∀ c ∈ Nat.toDigits 10 a.natAbs, c ≠ ' ' := by
    intro c hc
    rcases toDigitsCore_chars _ _ _ c hc with h | ⟨d, hd, h⟩
    · exact absurd h (List.not_mem_nil _)
    · obtain ⟨-, -, hsp, -, -⟩ := digitChar_props d hd
      intro hc2
      rw [h] at hc2
      rw [hc2] at hsp
      exact absurd hsp (by decide)
  intro hmem
  unfold fmtInt at hmem
  split_ifs at hmem
  · rcases List.mem_cons.mp hmem with h | h
    · exact absurd h (by decide)
    · exact hdig _ h rfl
  · exact hdig _ hmem rfl

theorem strtok_r_token (w rest : CString) (hne : w ≠ []) (hsp : ' ' ∉ w) :
    strtok_r (w ++ ' ' :: rest) = some (w, rest) := by
  obtain ⟨c, w1, rfl⟩ := List.exists_cons_of_ne_nil hne
  have hc : (c == ' ') = false := by
    have : c ≠ ' ' := fun h => hsp (h ▸ List.mem_cons_self _ _)
    simpa using this
  have htake : ∀ v : CString, ' ' ∉ v →
      (v ++ ' ' :: rest).takeWhile (· != ' ') = v
      ∧ (v ++ ' ' :: rest).dropWhile (· != ' ') = ' ' :: rest := by
    intro v hv
    induction v with
    | nil => simp
    | cons x v ih =>
      have hx : x ≠ ' ' := fun h => hv (h ▸ List.mem_cons_self _ _)
      have hv2 : ' ' ∉ v := fun h => hv (List.mem_cons_of_mem _ h)
      simp [List.takeWhile_cons, List.dropWhile_cons, hx, ih hv2]
  obtain ⟨h1, h2⟩ := htake (c :: w1) hsp
  unfold strtok_r
  have hdrop : List.dropWhile (· == ' ') (c :: w1 ++ ' ' :: rest) = c :: (w1 ++ ' ' :: rest) := by
    rw [List.cons_append, List.dropWhile_cons, hc]
    rfl
  rw [hdrop]
  simp only
  rw [← List.cons_append, h1, h2]
  rfl

theorem parseLoop_enough (n : Nat) (cs : CString) (h : cs.length + 1 ≤ n) :
    parseLoop n cs = tokens cs := by
  have h1 := parseLoop_take (cs.length + 1) n cs h
  have h2 := parseLoop_length_le n cs
  unfold tokens
  rw [h1, List.take_of_length_le (by omega)]

theorem tokens_cons (w rest : CString) (hne : w ≠ []) (hsp : ' ' ∉ w) :
    tokens (w ++ ' ' :: rest) = w :: tokens rest := by
  have hlen : (w ++ ' ' :: rest).length + 1 = (w.length + rest.length + 1) + 1 := by
    simp only [List.length_append, List.length_cons]; omega
  unfold tokens
  rw [hlen, parseLoop, strtok_r_token w rest hne hsp]
  simp only
  rw [parseLoop_enough _ rest (by omega)]
  rfl

theorem tokens_nil : tokens [] = [] := rfl

/-! ## The transparent loop -/

theorem nonBinary_cons (nvpp : xPL_NameValuePair) (rest : List xPL_NameValuePair) :
    nonBinary (nvpp :: rest)
      = if nvpp.isBinary = false then nvpp :: nonBinary rest else nonBinary rest := by
  cases hb : nvpp.isBinary <;> simp [nonBinary, List.filter_cons, hb]

theorem charsCounted_cons (start : Nat) (nvpp : xPL_NameValuePair)
    (rest : List xPL_NameValuePair) :
    charsCounted start (nvpp :: rest)
      = if nvpp.isBinary = false
        then charsCounted (start + (renderPair nvpp).length + 1) rest
        else charsCounted start rest := by
  cases hb : nvpp.isBinary
  · simp only [charsCounted, nonBinary_cons, hb, if_true, List.map_cons, List.sum_cons]
    omega
  · simp [charsCounted, nonBinary_cons, hb]

theorem transpLoop_structure (body : List xPL_NameValuePair) :
    ∀ (ws : CString) (n : Nat),
      ∃ k : Nat, k ≤ body.length
        ∧ transpLoop body ws n = ws ++ appendPairs (nonBinary (body.take k))
        ∧ (∀ j : Nat, j < k → charsCounted n (body.take j) < 223)
        ∧ (k < body.length → 223 ≤ charsCounted n (body.take k)) := by
  induction body with
  | nil =>
    intro ws n
    exact ⟨0, le_refl _, by simp [transpLoop, nonBinary, appendPairs], by simp, by simp⟩
  | cons p rest ih =>
    intro ws n
    by_cases hn : n < 223
    · cases hb : p.isBinary
      · obtain ⟨k, hk, hloop, hlt, hge⟩ :=
          ih (ws ++ (renderPair p).take 32 ++ [' ']) (n + (renderPair p).length + 1)
        refine ⟨k + 1, by simpa using hk, ?_, ?_, ?_⟩
        · have hcond : n < WS_SIZE - 33 := hn
          rw [transpLoop, if_pos hcond]
          simp only [hb, Bool.not_false, if_true]
          rw [show p.itemName ++ '=' :: p.itemValue = renderPair p from rfl, hloop]
          simp [List.take_succ_cons, nonBinary_cons, hb, appendPairs]
        · intro j hj
          cases j with
          | zero => simpa [charsCounted, nonBinary] using hn
          | succ j =>
            rw [List.take_succ_cons, charsCounted_cons, if_pos hb]
            exact hlt j (by omega)
        · intro hlen
          rw [List.take_succ_cons, charsCounted_cons, if_pos hb]
          exact hge (by simpa using hlen)
      · obtain ⟨k, hk, hloop, hlt, hge⟩ := ih ws n
        refine ⟨k + 1, by simpa using hk, ?_, ?_, ?_⟩
        · have hcond : n < WS_SIZE - 33 := hn
          rw [transpLoop, if_pos hcond]
          simp only [hb, Bool.not_true, Bool.false_eq_true, if_false]
          rw [hloop]
          simp [List.take_succ_cons, nonBinary_cons, hb]
        · intro j hj
          cases j with
          | zero => simpa [charsCounted, nonBinary] using hn
          | succ j =>
            rw [List.take_succ_cons, charsCounted_cons, if_neg (by simp [hb])]
            exact hlt j (by omega)
        · intro hlen
          rw [List.take_succ_cons, charsCounted_cons, if_neg (by simp [hb])]
          exact hge (by simpa using hlen)
    · refine ⟨0, Nat.zero_le _, ?_, by simp, ?_⟩
      · have hcond : ¬ (n < WS_SIZE - 33) := hn
        rw [transpLoop, if_neg hcond]
        simp [nonBinary, appendPairs]
      · intro _
        simpa [charsCounted, nonBinary] using hn

theorem nonBinary_take_of_fit (body : List xPL_NameValuePair) (n k : Nat)
    (hge : k < body.length → 223 ≤ charsCounted n (body.take k))
    (hfit : n + (((nonBinary body).dropLast).map
        (fun nvpp => (renderPair nvpp).length + 1)).sum < 223) :
    nonBinary (body.take k) = nonBinary body := by
  rcases Nat.lt_or_ge k body.length with hlt | hlen
  · have hsplit : nonBinary body = nonBinary (body.take k) ++ nonBinary (body.drop k) := by
      unfold nonBinary
      rw [← List.filter_append, List.take_append_drop]
    by_cases hd : nonBinary (body.drop k) = []
    · rw [hsplit, hd, List.append_nil]
    · exfalso
      have h223 := hge hlt
      rw [hsplit, List.dropLast_append_of_ne_nil _ hd, List.map_append, List.sum_append] at hfit
      unfold charsCounted at h223
      omega
  · rw [List.take_of_length_le hlen]

theorem renderPair_ne_nil (nvpp : xPL_NameValuePair) : renderPair nvpp ≠ [] := by
  unfold renderPair
  intro h
  have hlen := congrArg List.length h
  simp at hlen

theorem tokens_appendPairs (pairs : List xPL_NameValuePair)
    (hlen : ∀ nvpp ∈ pairs, (renderPair nvpp).length ≤ 32)
    (hsp : ∀ nvpp ∈ pairs, ' ' ∉ renderPair nvpp) :
    tokens (appendPairs pairs) = pairs.map renderPair := by
  induction pairs with
  | nil => rfl
  | cons p rest ih =>
    have h32 : (renderPair p).take 32 = renderPair p :=
      List.take_of_length_le (hlen p (List.mem_cons_self _ _))
    rw [appendPairs, h32,
      tokens_cons _ _ (renderPair_ne_nil p) (hsp p (List.mem_cons_self _ _)),
      ih (fun q hq => hlen q (List.mem_cons_of_mem _ hq))
        (fun q hq => hsp q (List.mem_cons_of_mem _ hq))]
    rfl

set_option maxRecDepth 100000 in
/-- C18, as stated, fails: with the address 1 and a body of seven pairs of 32
characters followed by the pair x=1, every pair renders in at most 32
characters without spaces and the whole text, 239 characters, fits the buffer of
256 bytes; yet the queued text holds the seven first pairs only, x=1 is not
among its tokens. -/
theorem transp_text_counterexample :
    (∀ nvpp ∈ nonBinary
        ((List.range 7).map (fun i =>
            xPL_NameValuePair.mk ("n".toList ++ fmtInt i) (List.replicate 29 'v') false)
          ++ [xPL_NameValuePair.mk "x".toList "1".toList false]),
        (renderPair nvpp).length ≤ 32 ∧ ' ' ∉ renderPair nvpp)
    ∧ (addressPrefix 1 ++ appendPairs
        ((List.range 7).map (fun i =>
            xPL_NameValuePair.mk ("n".toList ++ fmtInt i) (List.replicate 29 'v') false)
          ++ [xPL_NameValuePair.mk "x".toList "1".toList false])).length = 239
    ∧ (xPLListener (initialState 1 "5".toList)
        (xPL_Message.mk false xPL_MessageType.xPL_MESSAGE_COMMAND "hvac".toList
          "transp".toList
          (some ((List.range 7).map (fun i =>
              xPL_NameValuePair.mk ("n".toList ++ fmtInt i) (List.replicate 29 'v') false)
            ++ [xPL_NameValuePair.mk "x".toList "1".toList false])))).cmdQueue
      = [CmdEntry_t.mk
          (addressPrefix 1 ++ appendPairs
            ((List.range 7).map (fun i =>
              xPL_NameValuePair.mk ("n".toList ++ fmtInt i) (List.replicate 29 'v') false)))
          CmdType_t.CMDTYPE_TRANSP]
    ∧ "x=1".toList ∉ tokens
        (addressPrefix 1 ++ appendPairs
          ((List.range 7).map (fun i =>
            xPL_NameValuePair.mk ("n".toList ++ fmtInt i) (List.replicate 29 'v') false))) := by
  decide

/-- C18, amended. For the schema type "transp" the listener dispatches on,
every configured address and every message body whose non-binary pairs each
render as NAME=VALUE in at most 32 characters without spaces, and such that
fewer than 223 characters are counted in the work string before the last of
them is appended: the queued Transparent entry has the text "A=<a> " followed
by NAME=VALUE and a space for each non-binary pair of the body, in body order,
binary pairs omitted; split on spaces, its tokens are the address token and
then exactly those NAME=VALUE. -/
theorem transp_command_text (s : State) (m : xPL_Message) (body : List xPL_NameValuePair)
    (hb : m.isBroadcastMessage = false)
    (hk : m.messageType = xPL_MessageType.xPL_MESSAGE_COMMAND)
    (hclass : m.schemaClass = "hvac".toList)
    (htype : m.schemaType = "transp".toList)
    (hbody : m.messageBody = some body)
    (hlen : ∀ nvpp ∈ nonBinary body, (renderPair nvpp).length ≤ 32)
    (hsp : ∀ nvpp ∈ nonBinary body, ' ' ∉ renderPair nvpp)
    (hfit : (addressPrefix s.xplrcsAddress).length
        + (((nonBinary body).dropLast).map
            (fun nvpp => (renderPair nvpp).length + 1)).sum < 223) :
    (xPLListener s m).cmdQueue
        = s.cmdQueue ++ [CmdEntry_t.mk
            (addressPrefix s.xplrcsAddress ++ appendPairs (nonBinary body))
            CmdType_t.CMDTYPE_TRANSP]
    ∧ tokens (addressPrefix s.xplrcsAddress ++ appendPairs (nonBinary body))
        = ("A=".toList ++ fmtInt s.xplrcsAddress) :: (nonBinary body).map renderPair := by
  obtain ⟨k, -, hloop, -, hge⟩ :=
    transpLoop_structure body (addressPrefix s.xplrcsAddress)
      (addressPrefix s.xplrcsAddress).length
  rw [nonBinary_take_of_fit body _ k hge hfit] at hloop
  constructor
  · rw [xPLListener_transp s m body hb hk hclass htype hbody, hloop]
  · have haddr : addressPrefix s.xplrcsAddress ++ appendPairs (nonBinary body)
        = ("A=".toList ++ fmtInt s.xplrcsAddress) ++ ' ' :: appendPairs (nonBinary body) := by
      simp [addressPrefix]
    have hne : "A=".toList ++ fmtInt s.xplrcsAddress ≠ [] := by simp
    have hnsp : ' ' ∉ "A=".toList ++ fmtInt s.xplrcsAddress := by
      intro hmem
      rcases List.mem_append.mp hmem with h | h
      · exact absurd h (by decide)
      · exact fmtInt_no_space _ h
    rw [haddr, tokens_cons _ _ hne hnsp, tokens_appendPairs _ hlen hsp]

/-- Witness of C18: address 1, body sp=70 (not binary), raw (binary), fan=on
(not binary): the queued text is "A=1 sp=70 fan=on ". -/
theorem transp_command_text_witness :
    (xPLListener (initialState 1 "5".toList)
        (xPL_Message.mk false xPL_MessageType.xPL_MESSAGE_COMMAND "hvac".toList
          "transp".toList
          (some [xPL_NameValuePair.mk "sp".toList "70".toList false,
                 xPL_NameValuePair.mk "raw".toList "x y".toList true,
                 xPL_NameValuePair.mk "fan".toList "on".toList false]))).cmdQueue
      = [] ++ [CmdEntry_t.mk "A=1 sp=70 fan=on ".toList CmdType_t.CMDTYPE_TRANSP] :=
  (transp_command_text (initialState 1 "5".toList)
    (xPL_Message.mk false xPL_MessageType.xPL_MESSAGE_COMMAND "hvac".toList
      "transp".toList
      (some [xPL_NameValuePair.mk "sp".toList "70".toList false,
             xPL_NameValuePair.mk "raw".toList "x y".toList true,
             xPL_NameValuePair.mk "fan".toList "on".toList false]))
    [xPL_NameValuePair.mk "sp".toList "70".toList false,
     xPL_NameValuePair.mk "raw".toList "x y".toList true,
     xPL_NameValuePair.mk "fan".toList "on".toList false]
    rfl rfl rfl rfl rfl (by decide) (by decide) (by decide)).1

/-- C19, as stated, fails: a body with the single pair n=vvv... whose value has
40 characters queues the text "A=1 " followed by the first 32 characters of its
NAME=VALUE and a space: the pair is in the text, cut in the middle of its
value. -/
theorem transp_pair_cut_counterexample :
    (xPLListener (initialState 1 "5".toList)
        (xPL_Message.mk false xPL_MessageType.xPL_MESSAGE_COMMAND "hvac".toList
          "transp".toList
          (some [xPL_NameValuePair.mk "n".toList (List.replicate 40 'v') false]))).cmdQueue
      = [CmdEntry_t.mk ("A=1 n=".toList ++ List.replicate 30 'v' ++ " ".toList)
          CmdType_t.CMDTYPE_TRANSP]
    ∧ renderPair (xPL_NameValuePair.mk "n".toList (List.replicate 40 'v') false)
      = "n=".toList ++ List.replicate 40 'v' := by
  decide

/-- C19, amended. For every transparent command message body there is a point
`k` of the body such that the queued text is "A=<a> " followed, for each
non-binary pair before that point and in body order, by the first 32 characters
of its NAME=VALUE and a space, so a pair of at most 32 characters is there
whole and a longer one is cut; the pairs from that point on do not contribute
to the text at all.  The point is where the count of characters first reaches
223: it is below 223 before every pair that is taken and at least 223 at the
point itself when pairs are dropped. -/
theorem transp_pairs_cut_or_dropped (s : State) (m : xPL_Message)
    (body : List xPL_NameValuePair)
    (hb : m.isBroadcastMessage = false)
    (hk : m.messageType = xPL_MessageType.xPL_MESSAGE_COMMAND)
    (hclass : m.schemaClass = "hvac".toList)
    (htype : m.schemaType = "transp".toList)
    (hbody : m.messageBody = some body) :
    ∃ k : Nat, k ≤ body.length
      ∧ (xPLListener s m).cmdQueue
          = s.cmdQueue ++ [CmdEntry_t.mk
              (addressPrefix s.xplrcsAddress ++ appendPairs (nonBinary (body.take k)))
              CmdType_t.CMDTYPE_TRANSP]
      ∧ (∀ nvpp ∈ nonBinary (body.take k), (renderPair nvpp).length ≤ 32 →
          appendPairs [nvpp] = renderPair nvpp ++ [' '])
      ∧ (∀ j : Nat, j < k →
          charsCounted (addressPrefix s.xplrcsAddress).length (body.take j) < 223)
      ∧ (k < body.length →
          223 ≤ charsCounted (addressPrefix s.xplrcsAddress).length (body.take k)) := by
  obtain ⟨k, hkle, hloop, hlt, hge⟩ :=
    transpLoop_structure body (addressPrefix s.xplrcsAddress)
      (addressPrefix s.xplrcsAddress).length
  refine ⟨k, hkle, ?_, ?_, hlt, hge⟩
  · rw [xPLListener_transp s m body hb hk hclass htype hbody, hloop]
  · intro nvpp _ hlen
    simp only [appendPairs, List.take_of_length_le hlen]

/-- Witness of C19: address 1, body sp=70 and fan=on: both pairs are in the
queued text whole. -/
theorem transp_pairs_cut_or_dropped_witness :
    ∃ k : Nat, k ≤ 2
      ∧ (xPLListener (initialState 1 "5".toList)
          (xPL_Message.mk false xPL_MessageType.xPL_MESSAGE_COMMAND "hvac".toList
            "transp".toList
            (some [xPL_NameValuePair.mk "sp".toList "70".toList false,
                   xPL_NameValuePair.mk "fan".toList "on".toList false]))).cmdQueue
          = [] ++ [CmdEntry_t.mk
              (addressPrefix 1 ++ appendPairs (nonBinary
                ([xPL_NameValuePair.mk "sp".toList "70".toList false,
                  xPL_NameValuePair.mk "fan".toList "on".toList false].take k)))
              CmdType_t.CMDTYPE_TRANSP] :=
  (transp_pairs_cut_or_dropped (initialState 1 "5".toList)
    (xPL_Message.mk false xPL_MessageType.xPL_MESSAGE_COMMAND "hvac".toList
      "transp".toList
      (some [xPL_NameValuePair.mk "sp".toList "70".toList false,
             xPL_NameValuePair.mk "fan".toList "on".toList false]))
    [xPL_NameValuePair.mk "sp".toList "70".toList false,
     xPL_NameValuePair.mk "fan".toList "on".toList false]
    rfl rfl rfl rfl rfl).imp (fun _ h => ⟨h.1, h.2.1⟩)

/-! ## Where the configured address is used -/

theorem find_zone_replaced (zone theName : CString) (body : List xPL_NameValuePair) :
    ((body.map (fun nv =>
        if nv.itemName = "zone".toList then { nv with itemValue := zone } else nv)).find?
          (fun nv => nv.itemName = theName)).map (·.itemValue)
      = if theName = "zone".toList
        then ((body.find? (fun nv => nv.itemName = theName)).map (·.itemValue)).map
          (fun _ => zone)
        else (body.find? (fun nv => nv.itemName = theName)).map (·.itemValue) := by
  induction body with
  | nil => split_ifs <;> rfl
  | cons nv rest ih =>
    rw [List.map_cons, List.find?_cons, List.find?_cons]
    by_cases hname : nv.itemName = theName
    · by_cases hz : theName = "zone".toList
      · have hnz : nv.itemName = "zone".toList := hname.trans hz
        rw [if_pos hnz, if_pos hz]
        simp only [hname, decide_True, Option.map_some']
      · have hnz : ¬ (nv.itemName = "zone".toList) := fun h => hz (hname.symm.trans h)
        rw [if_neg hnz, if_neg hz]
        simp only [hname, decide_True, Option.map_some']
    · have h1 : decide (nv.itemName = theName) = false := by simpa using hname
      have h2 : decide ((if nv.itemName = "zone".toList
          then ({ nv with itemValue := zone } : xPL_NameValuePair) else nv).itemName
            = theName) = false := by
        split_ifs <;> simpa using hname
      rw [h1, h2]
      exact ih

theorem getNamedValue_withZone (m : xPL_Message) (zone theName : CString) :
    xPL_getMessageNamedValue (withZone zone m) theName
      = if theName = "zone".toList
        then (xPL_getMessageNamedValue m theName).map (fun _ => zone)
        else xPL_getMessageNamedValue m theName := by
  unfold xPL_getMessageNamedValue withZone
  cases hbody : m.messageBody with
  | none => split_ifs <;> rfl
  | some body => exact find_zone_replaced zone theName body

theorem doHVACMode_withZone (ws zone z1 z2 : CString) (m : xPL_Message) :
    doHVACMode ws (withZone zone m) z1 = doHVACMode ws m z2 := by
  have hne : ¬ ("mode".toList = "zone".toList) := by decide
  simp only [doHVACMode, getNamedValue_withZone, hne, if_false]

theorem doFanMode_withZone (ws zone z1 z2 : CString) (m : xPL_Message) :
    doFanMode ws (withZone zone m) z1 = doFanMode ws m z2 := by
  have hne : ¬ ("mode".toList = "zone".toList) := by decide
  simp only [doFanMode, getNamedValue_withZone, hne, if_false]

theorem doHVACMode_text (ws zone c : CString) (m : xPL_Message)
    (h : doHVACMode ws m zone = some c) : ∃ suffix : CString, c = ws ++ suffix := by
  unfold doHVACMode at h
  split at h
  · exact Option.noConfusion h
  · dsimp only at h
    split at h
    · exact ⟨_, (Option.some.inj h).symm⟩
    · exact Option.noConfusion h

theorem doFanMode_text (ws zone c : CString) (m : xPL_Message)
    (h : doFanMode ws m zone = some c) : ∃ suffix : CString, c = ws ++ suffix := by
  unfold doFanMode at h
  split at h
  · exact Option.noConfusion h
  · dsimp only at h
    split at h
    · exact ⟨_, (Option.some.inj h).symm⟩
    · exact Option.noConfusion h

theorem basic_text_starts (m : xPL_Message) (command zone c : CString)
    (h : (match matchCommand basicCommandList command with
        | 0 => doHVACMode "A=1".toList m zone
        | 1 => doFanMode "A=1".toList m zone
        | _ => none) = some c) :
    ∃ suffix : CString, c = "A=1".toList ++ suffix := by
  split at h
  · exact doHVACMode_text _ _ _ _ h
  · exact doFanMode_text _ _ _ _ h
  · exact Option.noConfusion h

theorem xPLListener_basic_queue (s : State) (m : xPL_Message)
    (htype : m.schemaType = "basic".toList) :
    (xPLListener s m).cmdQueue = s.cmdQueue
    ∨ ∃ suffix : CString,
        (xPLListener s m).cmdQueue
          = s.cmdQueue ++ [CmdEntry_t.mk ("A=1".toList ++ suffix) CmdType_t.CMDTYPE_BASIC] := by
  rw [xPLListener_basic s m htype]
  split_ifs
  · cases hcmd : xPL_getMessageNamedValue m "command".toList with
    | none => left; rfl
    | some command =>
      cases hzone : xPL_getMessageNamedValue m "zone".toList with
      | none => left; rfl
      | some zone =>
        simp only
        split
        · next c hres =>
          obtain ⟨suffix, hc⟩ := basic_text_starts m command zone c hres
          right
          exact ⟨suffix, by simp only [queueCommand_eq_append, hc]⟩
        · left; rfl
  all_goals left; rfl

theorem xPLListener_basic_withZone (s : State) (m : xPL_Message) (address : Int)
    (zone : CString) (htype : m.schemaType = "basic".toList) :
    (xPLListener { s with xplrcsAddress := address } (withZone zone m)).cmdQueue
      = (xPLListener s m).cmdQueue := by
  have htype2 : (withZone zone m).schemaType = "basic".toList := htype
  have h1 : ¬ ("command".toList = "zone".toList) := by decide
  rw [xPLListener_basic s m htype, xPLListener_basic _ (withZone zone m) htype2]
  simp only [getNamedValue_withZone, h1, if_false, if_true]
  have hb : (withZone zone m).isBroadcastMessage = m.isBroadcastMessage := rfl
  have hk : (withZone zone m).messageType = m.messageType := rfl
  have hc : (withZone zone m).schemaClass = m.schemaClass := rfl
  rw [hb, hk, hc]
  split_ifs
  · cases hcmd : xPL_getMessageNamedValue m "command".toList with
    | none => rfl
    | some command =>
      cases hzone : xPL_getMessageNamedValue m "zone".toList with
      | none => rfl
      | some z0 =>
        simp only [Option.map_some', doHVACMode_withZone "A=1".toList zone zone z0 m,
          doFanMode_withZone "A=1".toList zone zone z0 m]
        split <;> rfl
  all_goals rfl

theorem fmtInt_injective (a b : Int) (h : fmtInt a = fmtInt b) : a = b := by
  have := congrArg decimalValue h
  rwa [decimalValue_fmtInt, decimalValue_fmtInt] at this

theorem pollRequest_injective (a b : Int) (h : pollRequest a = pollRequest b) : a = b := by
  unfold pollRequest at h
  rw [List.append_assoc, List.append_assoc] at h
  exact fmtInt_injective a b (List.append_cancel_right (List.append_cancel_left h))

theorem addressPrefix_injective (a b : Int) (t1 t2 : CString)
    (h : addressPrefix a ++ t1 = addressPrefix b ++ t2) : a = b := by
  have hform : ∀ (x : Int) (t : CString),
      tokens (addressPrefix x ++ t) = ("A=".toList ++ fmtInt x) :: tokens t := by
    intro x t
    have haddr : addressPrefix x ++ t = ("A=".toList ++ fmtInt x) ++ ' ' :: t := by
      simp [addressPrefix]
    have hne : "A=".toList ++ fmtInt x ≠ [] := by simp
    have hnsp : ' ' ∉ "A=".toList ++ fmtInt x := by
      intro hmem
      rcases List.mem_append.mp hmem with h1 | h1
      · exact absurd h1 (by decide)
      · exact fmtInt_no_space _ h1
    rw [haddr, tokens_cons _ _ hne hnsp]
  have htok := congrArg tokens h
  rw [hform a t1, hform b t2] at htok
  exact fmtInt_injective a b (List.append_cancel_left (List.cons.inj htok).1)

/-- C20. For a basic-schema message the command queue is left as it was or
gains one Basic entry whose text starts with the literal "A=1"; the queue after
the listener is the same when the configured address and the value of the zone
field are replaced by any others.  The poll request and the text of a
transparent command start with "A=" and the decimal configured address, and
differ as soon as the addresses differ. -/
theorem basic_entries_carry_literal_address (s : State) (m : xPL_Message)
    (htype : m.schemaType = "basic".toList) :
    ((xPLListener s m).cmdQueue = s.cmdQueue
      ∨ ∃ suffix : CString,
          (xPLListener s m).cmdQueue
            = s.cmdQueue ++ [CmdEntry_t.mk ("A=1".toList ++ suffix) CmdType_t.CMDTYPE_BASIC])
    ∧ (∀ (address : Int) (zone : CString),
        (xPLListener { s with xplrcsAddress := address } (withZone zone m)).cmdQueue
          = (xPLListener s m).cmdQueue)
    ∧ (s.cmdQueue = [] → s.pollRate ≤ wrapShort (s.pollCtr + 1) →
        (tickHandler s).serialOut
          = s.serialOut ++ ["A=".toList ++ fmtInt s.xplrcsAddress ++ " R=1\r".toList])
    ∧ (∀ a b : Int, pollRequest a = pollRequest b → a = b)
    ∧ (∀ (mt : xPL_Message) (body : List xPL_NameValuePair),
        mt.isBroadcastMessage = false →
        mt.messageType = xPL_MessageType.xPL_MESSAGE_COMMAND →
        mt.schemaClass = "hvac".toList → mt.schemaType = "transp".toList →
        mt.messageBody = some body →
        ∃ t : CString,
          (xPLListener s mt).cmdQueue
            = s.cmdQueue ++ [CmdEntry_t.mk
                ("A=".toList ++ fmtInt s.xplrcsAddress ++ " ".toList ++ t)
                CmdType_t.CMDTYPE_TRANSP])
    ∧ (∀ (a b : Int) (t1 t2 : CString),
        addressPrefix a ++ t1 = addressPrefix b ++ t2 → a = b) := by
  refine ⟨xPLListener_basic_queue s m htype,
    fun address zone => xPLListener_basic_withZone s m address zone htype,
    fun hq hge => ?_, pollRequest_injective,
    fun mt body hb hk hclass ht hbody => ?_, addressPrefix_injective⟩
  · rw [tickHandler_empty_queue s hq, if_pos hge]
    rfl
  · obtain ⟨k, -, hloop, -, -⟩ :=
      transpLoop_structure body (addressPrefix s.xplrcsAddress)
        (addressPrefix s.xplrcsAddress).length
    exact ⟨_, by rw [xPLListener_transp s mt body hb hk hclass ht hbody, hloop]; rfl⟩

/-- Witness of C20: zone=1, command=hvac-mode, mode=cool with the address 1, and
the same message with zone=7 and the address 200, queue the same entry. -/
theorem basic_entries_carry_literal_address_witness :
    (xPLListener { initialState 1 "5".toList with xplrcsAddress := 200 }
        (withZone "7".toList
          (xPL_Message.mk false xPL_MessageType.xPL_MESSAGE_COMMAND "hvac".toList
            "basic".toList
            (some [xPL_NameValuePair.mk "zone".toList "1".toList false,
                   xPL_NameValuePair.mk "command".toList "hvac-mode".toList false,
                   xPL_NameValuePair.mk "mode".toList "cool".toList false])))).cmdQueue
      = (xPLListener (initialState 1 "5".toList)
          (xPL_Message.mk false xPL_MessageType.xPL_MESSAGE_COMMAND "hvac".toList
            "basic".toList
            (some [xPL_NameValuePair.mk "zone".toList "1".toList false,
                   xPL_NameValuePair.mk "command".toList "hvac-mode".toList false,
                   xPL_NameValuePair.mk "mode".toList "cool".toList false]))).cmdQueue :=
  (basic_entries_carry_literal_address (initialState 1 "5".toList)
    (xPL_Message.mk false xPL_MessageType.xPL_MESSAGE_COMMAND "hvac".toList
      "basic".toList
      (some [xPL_NameValuePair.mk "zone".toList "1".toList false,
             xPL_NameValuePair.mk "command".toList "hvac-mode".toList false,
             xPL_NameValuePair.mk "mode".toList "cool".toList false]))
    rfl).2.1 200 "7".toList

/-! ## Poll responses: when a trigger is sent -/

/-- C21. On a poll response `serioHandler` sends exactly one message, a trigger
message, when the received line differs from `lastLine`, and sends nothing when
it is the same, whatever the fields set on the message: the trigger sent is
empty when only the address token differs ("A=1 M=O" then "A=2 M=O"), when the
lines differ only in the number of separating spaces ("A=1 M=O" then
"A=1  M=O"), and when the only difference lies beyond the 19th token. -/
theorem trigger_sent_iff_line_differs (s : State) (line : CString)
    (hp : s.pollPending = true) :
    ((∃ fields : FieldSet,
        (serioHandler s (some line)).busOut
          = s.busOut ++ [SentMessage.mk xPL_MessageType.xPL_MESSAGE_TRIGGER fields])
      ↔ line ≠ s.lastLine)
    ∧ (line = s.lastLine → (serioHandler s (some line)).busOut = s.busOut)
    ∧ (s.lastLine = "A=1 M=O".toList →
        (serioHandler s (some "A=2 M=O".toList)).busOut
          = s.busOut ++ [SentMessage.mk xPL_MessageType.xPL_MESSAGE_TRIGGER []])
    ∧ (s.lastLine = "A=1 M=O".toList →
        (serioHandler s (some "A=1  M=O".toList)).busOut
          = s.busOut ++ [SentMessage.mk xPL_MessageType.xPL_MESSAGE_TRIGGER []])
    ∧ (s.lastLine
          = "A=1 B=2 C=3 D=4 E=5 F=6 G=7 H=8 I=9 J=1 K=2 L=3 M=4 N=5 O=6 P=7 Q=8 R=9 S=1 T=2".toList →
        (serioHandler s
          (some "A=1 B=2 C=3 D=4 E=5 F=6 G=7 H=8 I=9 J=1 K=2 L=3 M=4 N=5 O=6 P=7 Q=8 R=9 S=1 T=3".toList)).busOut
          = s.busOut ++ [SentMessage.mk xPL_MessageType.xPL_MESSAGE_TRIGGER []]) := by
  have hsame : line = s.lastLine → (serioHandler s (some line)).busOut = s.busOut := by
    intro h
    rw [h, serioHandler_poll_same s hp]
  have hexample : ∀ prev cur : CString, cur ≠ prev →
      triggerLoop ((tokens cur).take 19) ((tokens prev).take 19)
        (((tokens prev).take 19).length != ((tokens cur).take 19).length) [] = [] →
      s.lastLine = prev →
      (serioHandler s (some cur)).busOut
        = s.busOut ++ [SentMessage.mk xPL_MessageType.xPL_MESSAGE_TRIGGER []] := by
    intro prev cur hne hloop hl
    rw [serioHandler_poll_changed s cur hp (by rw [hl]; exact hne), hl, hloop]
  refine ⟨⟨?_, ?_⟩, hsame, ?_, ?_, ?_⟩
  · rintro ⟨fields, hsent⟩ heq
    rw [hsame heq] at hsent
    have hlen := congrArg List.length hsent
    simp at hlen
  · intro hne
    exact ⟨_, by rw [serioHandler_poll_changed s line hp hne]⟩
  · exact hexample _ _ (by decide) (by decide)
  · exact hexample _ _ (by decide) (by decide)
  · exact hexample _ _ (by decide) (by decide)

/-- Witness of C21: the poll response "A=2 M=O" after "A=1 M=O" sends one
trigger message, which holds no field. -/
theorem trigger_sent_iff_line_differs_witness :
    (serioHandler
        { initialState 1 "5".toList with pollPending := true, lastLine := "A=1 M=O".toList }
        (some "A=2 M=O".toList)).busOut
      = [] ++ [SentMessage.mk xPL_MessageType.xPL_MESSAGE_TRIGGER []] :=
  (trigger_sent_iff_line_differs
    { initialState 1 "5".toList with pollPending := true, lastLine := "A=1 M=O".toList }
    "A=2 M=O".toList rfl).2.2.1 rfl

/-! ## The transparent loop stays within the work string -/

theorem transpLoop_cons (nvpp : xPL_NameValuePair) (rest : List xPL_NameValuePair)
    (ws : CString) (n : Nat) :
    transpLoop (nvpp :: rest) ws n
      = if n < WS_SIZE - 33
        then transpLoop rest (transpStep nvpp (ws, n)).1 (transpStep nvpp (ws, n)).2
        else ws := by
  rw [transpLoop]
  cases hb : nvpp.isBinary <;> simp [transpStep, hb, renderPair]

theorem transpStep_length (nvpp : xPL_NameValuePair) (st : CString × Nat) :
    (transpStep nvpp st).1.length ≤ st.1.length + 33
    ∧ (st.1.length ≤ st.2 → (transpStep nvpp st).1.length ≤ (transpStep nvpp st).2)
    ∧ ∃ added : CString, (transpStep nvpp st).1 = st.1 ++ added := by
  unfold transpStep
  cases hb : nvpp.isBinary
  · have htake : ((renderPair nvpp).take 32).length ≤ 32 := by
      rw [List.length_take]; exact Nat.min_le_left _ _
    have htake2 : ((renderPair nvpp).take 32).length ≤ (renderPair nvpp).length := by
      rw [List.length_take]; exact Nat.min_le_right _ _
    simp only [Bool.not_false, if_true, List.length_append, List.length_singleton]
    refine ⟨by omega, fun h => by omega, ⟨(renderPair nvpp).take 32 ++ [' '], ?_⟩⟩
    rw [List.append_assoc]
  · simp only [Bool.not_true, Bool.false_eq_true, if_false]
    exact ⟨by omega, fun h => h, ⟨[], by simp⟩⟩

theorem transpStates_last (body : List xPL_NameValuePair) :
    ∀ st : CString × Nat,
      ∃ n : Nat, (transpStates body st).getLast? = some (transpLoop body st.1 st.2, n) := by
  induction body with
  | nil => intro st; exact ⟨st.2, by simp [transpStates, transpLoop]⟩
  | cons p rest ih =>
    intro st
    rw [transpLoop_cons, transpStates]
    by_cases hn : st.2 < WS_SIZE - 33
    · obtain ⟨n, hlast⟩ := ih (transpStep p st)
      refine ⟨n, ?_⟩
      rw [if_pos hn, if_pos hn]
      have hne : transpStates rest (transpStep p st) ≠ [] := by
        intro h
        rw [h] at hlast
        exact Option.noConfusion hlast
      obtain ⟨y, ys, hys⟩ := List.exists_cons_of_ne_nil hne
      rw [hys] at hlast ⊢
      rw [List.getLast?_cons_cons]
      exact hlast
    · exact ⟨st.2, by rw [if_neg hn, if_neg hn]; rfl⟩

theorem transpStates_bounded (body : List xPL_NameValuePair) :
    ∀ st : CString × Nat, st.1.length ≤ st.2 → st.1.length ≤ 255 →
      ∀ x ∈ transpStates body st, x.1.length ≤ x.2 ∧ x.1.length ≤ 255 := by
  induction body with
  | nil =>
    intro st h1 h2 x hx
    simp only [transpStates, List.mem_singleton] at hx
    rw [hx]; exact ⟨h1, h2⟩
  | cons p rest ih =>
    intro st h1 h2 x hx
    rw [transpStates] at hx
    rcases List.mem_cons.mp hx with h | h
    · rw [h]; exact ⟨h1, h2⟩
    · by_cases hn : st.2 < WS_SIZE - 33
      · rw [if_pos hn] at h
        obtain ⟨ha, hb, -⟩ := transpStep_length p st
        have hn2 : st.2 < 223 := hn
        exact ih (transpStep p st) (hb h1) (by omega) x h
      · rw [if_neg hn] at h
        exact absurd h (List.not_mem_nil _)

theorem toDigitsCore_length (fuel : Nat) :
    ∀ (n k : Nat) (ds : List Char), 0 < k → n < 10 ^ k →
      (Nat.toDigitsCore 10 fuel n ds).length ≤ ds.length + k := by
  induction fuel with
  | zero => intro n k ds _ _; simp [Nat.toDigitsCore]
  | succ fuel ih =>
    intro n k ds hk hn
    by_cases h0 : n / 10 = 0
    · simp only [Nat.toDigitsCore, h0, if_true, List.length_cons]
      omega
    · simp only [Nat.toDigitsCore, h0, if_false]
      obtain ⟨j, rfl⟩ : ∃ j, k = j + 1 := ⟨k - 1, by omega⟩
      have hj : 0 < j := by
        rcases Nat.eq_zero_or_pos j with hz | hpos
        · subst hz
          simp only [zero_add, pow_one] at hn
          omega
        · exact hpos
      have hdiv : n / 10 < 10 ^ j := by
        rw [pow_succ] at hn
        omega
      have := ih (n / 10) j (Nat.digitChar (n % 10) :: ds) hj hdiv
      simp only [List.length_cons] at this
      omega

theorem addressPrefix_length (address : Int) (h0 : 0 ≤ address) (h255 : address ≤ 255) :
    (addressPrefix address).length ≤ 6 := by
  obtain ⟨n, rfl⟩ := Int.eq_ofNat_of_zero_le h0
  have hn : n < 10 ^ 3 := by norm_num; omega
  have hfmt : fmtInt (n : Int) = Nat.toDigits 10 n := by
    simp [fmtInt]
  have hdig := toDigitsCore_length (n + 1) n 3 [] (by decide) hn
  have h1 : "A=".toList.length = 2 := rfl
  have h2 : " ".toList.length = 1 := rfl
  simp only [addressPrefix, hfmt, List.length_append, h1, h2, Nat.toDigits]
  simp only [List.length_nil] at hdig
  omega

/-- C22. For every configured address in [0,255] and every transparent message
body, each time the loop condition is evaluated the work string is no longer
than `charsInBuffer` and has at most 255 characters, so it fits the buffer of
256 bytes with its terminator; the work string the loop ends with is the last
of these and is what gets queued.  An iteration is entered only when
`charsInBuffer < 223`, and an iteration appends at most 32 characters and one
space to the work string. -/
theorem work_string_within_buffer (s : State) (body : List xPL_NameValuePair)
    (h0 : 0 ≤ s.xplrcsAddress) (h255 : s.xplrcsAddress ≤ 255) :
    (∀ st ∈ transpStates body
        (addressPrefix s.xplrcsAddress, (addressPrefix s.xplrcsAddress).length),
        st.1.length ≤ st.2 ∧ st.1.length ≤ 255)
    ∧ (∃ n : Nat,
        (transpStates body
          (addressPrefix s.xplrcsAddress, (addressPrefix s.xplrcsAddress).length)).getLast?
          = some (transpLoop body (addressPrefix s.xplrcsAddress)
              (addressPrefix s.xplrcsAddress).length, n))
    ∧ (transpLoop body (addressPrefix s.xplrcsAddress)
        (addressPrefix s.xplrcsAddress).length).length ≤ 255
    ∧ (∀ (nvpp : xPL_NameValuePair) (rest : List xPL_NameValuePair) (st : CString × Nat),
        ¬ st.2 < 223 →
        transpStates (nvpp :: rest) st = [st] ∧ transpLoop (nvpp :: rest) st.1 st.2 = st.1)
    ∧ (∀ (nvpp : xPL_NameValuePair) (st : CString × Nat),
        (transpStep nvpp st).1.length ≤ st.1.length + 32 + 1
        ∧ ∃ added : CString, (transpStep nvpp st).1 = st.1 ++ added)
    ∧ (∀ m : xPL_Message, m.isBroadcastMessage = false →
        m.messageType = xPL_MessageType.xPL_MESSAGE_COMMAND →
        m.schemaClass = "hvac".toList → m.schemaType = "transp".toList →
        m.messageBody = some body →
        ∃ text : CString,
          (xPLListener s m).cmdQueue
            = s.cmdQueue ++ [CmdEntry_t.mk text CmdType_t.CMDTYPE_TRANSP]
          ∧ text.length ≤ 255) := by
  have hlen := addressPrefix_length s.xplrcsAddress h0 h255
  have hall := transpStates_bounded body
    (addressPrefix s.xplrcsAddress, (addressPrefix s.xplrcsAddress).length)
    (le_refl _) (by simp only; omega)
  obtain ⟨n, hlast⟩ := transpStates_last body
    (addressPrefix s.xplrcsAddress, (addressPrefix s.xplrcsAddress).length)
  have hfinal : (transpLoop body (addressPrefix s.xplrcsAddress)
      (addressPrefix s.xplrcsAddress).length).length ≤ 255 :=
    (hall _ (List.mem_of_getLast?_eq_some hlast)).2
  refine ⟨hall, ⟨n, hlast⟩, hfinal, ?_, ?_, ?_⟩
  · intro nvpp rest st hn
    have hcond : ¬ st.2 < WS_SIZE - 33 := hn
    constructor
    · rw [transpStates, if_neg hcond]
    · rw [transpLoop_cons, if_neg hcond]
  · intro nvpp st
    obtain ⟨ha, -, hc⟩ := transpStep_length nvpp st
    exact ⟨ha, hc⟩
  · intro m hb hk hclass htype hbody
    exact ⟨_, by rw [xPLListener_transp s m body hb hk hclass htype hbody], hfinal⟩

/-- Witness of C22: address 255 and a body of ten pairs whose values have 100
characters each: the work string the loop ends with has at most 255
characters. -/
theorem work_string_within_buffer_witness :
    (transpLoop
        (List.replicate 10 (xPL_NameValuePair.mk "n".toList (List.replicate 100 'v') false))
        (addressPrefix 255) (addressPrefix 255).length).length ≤ 255 :=
  (work_string_within_buffer (initialState 255 "5".toList)
    (List.replicate 10 (xPL_NameValuePair.mk "n".toList (List.replicate 100 'v') false))
    (by decide) (by decide)).2.2.1

end Xplrcs
